import Mathlib

/-!
# SimpleDRClient: argument routing and the instruction-count pass

A shallow embedding of `SimpleDRClientTest/main.c` (the same parser and the same
two basic-block callbacks are repeated in `SimpleDRClientTest/inscount.c`).

* C strings and fixed-size `char` arrays are `List Char`; a write outside an
  array is undefined behaviour in C and is `none` here.
* `MAX_STRING_LENGTH` is defined in `defines.h`, outside the two modelled
  files, so every definition that depends on it takes it as a parameter.
* The file-scope variables of `main.c` are the fields of `Globals`; functions
  that assign them take and return a `Globals`.
-/

namespace SimpleDRClient

/-! ## Data model -/

/-- The value of `#define ARGUMENT_LENGTH 20`. -/
def ARGUMENT_LENGTH : Nat := 20

/-- The string terminator, written `'\0'` in the source. -/
abbrev NUL : Char := '\x00'

/-- The struct `_cmdarguments_t`: `char name[MAX_STRING_LENGTH]` and
`char arguments[10 * MAX_STRING_LENGTH]`. -/
structure cmdarguments_t where
  name : List Char
  arguments : List Char
deriving DecidableEq, Repr

/-- The file-scope variables of `main.c` that the modelled functions read or
assign: `arguments`, `argument_length`, `logdir`, `debug_mode`, `log_mode`,
`exec`, `only_from_app`, `exe_start` and `global_count`. -/
structure Globals where
  arguments : List cmdarguments_t
  argument_length : Int
  logdir : List Char
  debug_mode : Bool
  log_mode : Bool
  exec : List Char
  only_from_app : Bool
  exe_start : Nat
  global_count : Nat
deriving DecidableEq, Repr

/-- One zero-filled `cmdarguments_t`. -/
def zero_entry (MAX_STRING_LENGTH : Nat) : cmdarguments_t :=
  { name := List.replicate MAX_STRING_LENGTH NUL
    arguments := List.replicate (10 * MAX_STRING_LENGTH) NUL }

/-- The state at program start: static storage is zero-initialised, and the
initialisers of `main.c` are `argument_length = 0`, `debug_mode = false`,
`log_mode = false`, `only_from_app = false`. -/
def init_globals (MAX_STRING_LENGTH : Nat) : Globals :=
  { arguments := List.replicate ARGUMENT_LENGTH (zero_entry MAX_STRING_LENGTH)
    argument_length := 0
    logdir := List.replicate MAX_STRING_LENGTH NUL
    debug_mode := false
    log_mode := false
    exec := List.replicate MAX_STRING_LENGTH NUL
    only_from_app := false
    exe_start := 0
    global_count := 0 }

/-! ## C strings -/

/-- The string held in a `char` array: the characters before the first `NUL`. -/
def cstr (buf : List Char) : List Char :=
  buf.takeWhile (fun c => c ≠ NUL)

/-- The test `strcmp(a, b) == 0`: both arrays hold the same string. -/
def strcmp_eq (a b : List Char) : Bool :=
  cstr a == cstr b

/-- The call `strncpy(dest, src, n)`: the string of `src`, cut at `n` characters,
is copied to the start of `dest` and padded with `NUL` up to `n` characters;
what `dest` holds from position `n` on is kept. -/
def strncpy (dest src : List Char) (n : Nat) : List Char :=
  let s := cstr (src.take n)
  s ++ List.replicate (n - s.length) NUL ++ dest.drop n

/-- The assignment `buf[i] = c` to a `char` array, `none` when `i` is not an
index of the array. -/
def store (buf : List Char) (i : Int) (c : Char) : Option (List Char) :=
  if 0 ≤ i ∧ i < buf.length then some (buf.set i.toNat c) else none

/-- The assignment `arguments[index].name[string_index] = c`. -/
def store_name (arr : List cmdarguments_t) (index string_index : Int) (c : Char) :
    Option (List cmdarguments_t) :=
  if 0 ≤ index then
    match arr[index.toNat]? with
    | none => none
    | some e =>
      match store e.name string_index c with
      | none => none
      | some b => some (arr.set index.toNat { e with name := b })
  else none

/-- The assignment `arguments[index].arguments[string_index] = c`. -/
def store_arguments (arr : List cmdarguments_t) (index string_index : Int) (c : Char) :
    Option (List cmdarguments_t) :=
  if 0 ≤ index then
    match arr[index.toNat]? with
    | none => none
    | some e =>
      match store e.arguments string_index c with
      | none => none
      | some b => some (arr.set index.toNat { e with arguments := b })
  else none

/-! ## `process_global_arguments` -/

/-- The conversion of `arguments[i].arguments[0] - '0'` to `bool`: the difference
of the two character codes is non-zero. -/
def digit_flag (c : Char) : Bool :=
  decide ((c.toNat : Int) - ('0'.toNat : Int) ≠ 0)

/-- The body of the `for` loop of `process_global_arguments` for the entry
`arguments[i]` (the `dr_printf` lines only log and are left out). -/
def process_entry (MAX_STRING_LENGTH : Nat) (g : Globals) (e : cmdarguments_t) : Globals :=
  if strcmp_eq e.name "logdir".toList then
    { g with logdir := strncpy g.logdir e.arguments MAX_STRING_LENGTH }
  else if strcmp_eq e.name "debug".toList then
    { g with debug_mode := digit_flag (e.arguments.headD NUL) }
  else if strcmp_eq e.name "log".toList then
    { g with log_mode := digit_flag (e.arguments.headD NUL) }
  else if strcmp_eq e.name "exec".toList then
    { g with exec := strncpy g.exec e.arguments MAX_STRING_LENGTH }
  else g

/-- The function `process_global_arguments`: the loop
`for (i = 0; i < argument_length; i++)` over `arguments[i]`. The loop does not
assign `arguments`, so the entries it visits are the first `argument_length`
ones of the table it starts with. -/
def process_global_arguments (MAX_STRING_LENGTH : Nat) (g : Globals) : Globals :=
  (g.arguments.take g.argument_length.toNat).foldl (process_entry MAX_STRING_LENGTH) g

/-! ## `doCommandLineArgProcessing` -/

/-- The local variables of `doCommandLineArgProcessing` together with the table
it fills. The two `int` flags only ever hold 0 or 1 and are `Bool` here; the
position `i` in the input is the remaining input of `parse_loop`. -/
structure ParseState where
  arguments : List cmdarguments_t
  string_index : Int
  index : Int
  name_collect_state : Bool
  arguments_collect_state : Bool
deriving DecidableEq, Repr

/-- One iteration of the `while` loop on the character `c = args[i]`. -/
def parse_step (st : ParseState) (c : Char) : Option ParseState :=
  if c = '-' then
    match (if 0 ≤ st.index then
        store_arguments st.arguments st.index (st.string_index - 1) NUL
      else some st.arguments) with
    | none => none
    | some arr =>
      some { arguments := arr, string_index := 0, index := st.index + 1,
             name_collect_state := true, arguments_collect_state := false }
  else if c = ' ' ∧ st.name_collect_state = true then
    match store_name st.arguments st.index st.string_index NUL with
    | none => none
    | some arr =>
      some { arguments := arr, string_index := 0, index := st.index,
             name_collect_state := false, arguments_collect_state := true }
  else
    match (if st.name_collect_state = true then
        (store_name st.arguments st.index st.string_index c).map
          (fun arr => { st with arguments := arr, string_index := st.string_index + 1 })
      else some st) with
    | none => none
    | some st1 =>
      if st1.arguments_collect_state = true then
        (store_arguments st1.arguments st1.index st1.string_index c).map
          (fun arr => { st1 with arguments := arr, string_index := st1.string_index + 1 })
      else some st1

/-- The loop `while (args[i] != '\0')`: it stops at the first `NUL`, or at the
end of the list, where the terminator of the C string stands. -/
def parse_loop : List Char → ParseState → Option ParseState
  | [], st => some st
  | c :: cs, st =>
    if c = NUL then some st
    else
      match parse_step st c with
      | none => none
      | some st1 => parse_loop cs st1

/-- The locals at the start of `doCommandLineArgProcessing`. -/
def parse_start (arr : List cmdarguments_t) : ParseState :=
  { arguments := arr, string_index := 0, index := -1,
    name_collect_state := false, arguments_collect_state := false }

/-- The statements after the loop: the epilog
`arguments[index].arguments[string_index++] = '\0'` and
`argument_length = index + 1`. The result is the table and `argument_length`. -/
def parse_epilog (st : ParseState) : Option (List cmdarguments_t × Int) :=
  match store_arguments st.arguments st.index st.string_index NUL with
  | none => none
  | some arr => some (arr, st.index + 1)

/-- The loop run from the locals `st` on the input `args`, then the epilog. -/
def parse_from (args : List Char) (st : ParseState) : Option (List cmdarguments_t × Int) :=
  match parse_loop args st with
  | none => none
  | some st1 => parse_epilog st1

/-- The function `doCommandLineArgProcessing`, with `args` the string that
`dr_get_options(id)` returns: the loop and the epilog from the initial locals,
then the call of `process_global_arguments`. -/
def doCommandLineArgProcessing (MAX_STRING_LENGTH : Nat) (args : List Char) (g : Globals) :
    Option Globals :=
  match parse_from args (parse_start g.arguments) with
  | none => none
  | some (arr, n) =>
    some (process_global_arguments MAX_STRING_LENGTH
      { g with arguments := arr, argument_length := n })

/-! ## Configuration strings of the form `-k1 v1 -k2 v2 ... -kn vn` -/

/-- The text `-k v` of one key and its value. -/
def render_pair (p : List Char × List Char) : List Char :=
  '-' :: p.1 ++ ' ' :: p.2

/-- The text that follows the first pair: each further pair after one space. -/
def render_tail : List (List Char × List Char) → List Char
  | [] => []
  | p :: ps => ' ' :: render_pair p ++ render_tail ps

/-- The configuration string `-k1 v1 -k2 v2 ... -kn vn`, the tokens separated by
exactly one space. -/
def render : List (List Char × List Char) → List Char
  | [] => []
  | p :: ps => render_pair p ++ render_tail ps

/-- A key as the parser expects it: not empty, without `' '`, `'-'` or `NUL`,
and shorter than the `name` array. -/
def key_ok (MAX_STRING_LENGTH : Nat) (k : List Char) : Prop :=
  k ≠ [] ∧ ' ' ∉ k ∧ '-' ∉ k ∧ NUL ∉ k ∧ k.length < MAX_STRING_LENGTH

/-- A value as the parser expects it: not empty, without `'-'` or `NUL`, with no
space at either end, and shorter than the `arguments` array. -/
def value_ok (MAX_STRING_LENGTH : Nat) (v : List Char) : Prop :=
  v ≠ [] ∧ '-' ∉ v ∧ NUL ∉ v ∧ v.head? ≠ some ' ' ∧ v.getLast? ≠ some ' ' ∧
    v.length < 10 * MAX_STRING_LENGTH

instance (m : Nat) (k : List Char) : Decidable (key_ok m k) := by
  unfold key_ok; infer_instance

instance (m : Nat) (v : List Char) : Decidable (value_ok m v) := by
  unfold value_ok; infer_instance

/-- What the parser needs of a key and a value: no character that it treats
specially, and room for the terminator in the arrays. -/
def pair_fits (MAX_STRING_LENGTH : Nat) (p : List Char × List Char) : Prop :=
  (∀ c ∈ p.1, c ≠ '-' ∧ c ≠ ' ' ∧ c ≠ NUL) ∧ p.1.length < MAX_STRING_LENGTH ∧
  (∀ c ∈ p.2, c ≠ '-' ∧ c ≠ NUL) ∧ p.2.length < 10 * MAX_STRING_LENGTH

/-- The entries that the loop of `process_global_arguments` visits. -/
def visited (g : Globals) : List cmdarguments_t :=
  g.arguments.take g.argument_length.toNat

/-! ## `dr_client_main`: the command-line options -/

/-- The part of `module_data_t` that the client reads: the `start` address. -/
structure module_data_t where
  start : Nat
deriving DecidableEq, Repr

/-- The options loop `for (i = 1; i < argc; i++)` of `dr_client_main` over
`argv[1..]`. An argument equal to `-only_from_app` sets the flag. Any other
argument is printed and reaches `DR_ASSERT_MSG(false, "invalid option")`; the
loop has no `return` or `break` there. The macro is the host's (`dr_api.h`):
when `DEBUG` is defined it aborts, which is `none`, and otherwise it expands
to nothing and the loop goes on with the next argument. `DEBUG` is a
parameter. -/
def client_options (DEBUG : Bool) : Globals → List (List Char) → Option Globals
  | g, [] => some g
  | g, a :: rest =>
    if strcmp_eq a "-only_from_app".toList then
      client_options DEBUG { g with only_from_app := true } rest
    else if DEBUG = true then none
    else client_options DEBUG g rest

/-- The part of `dr_client_main` that assigns file-scope variables: the options
loop over `argv` without `argv[0]`, then, when `only_from_app` is set,
`exe_start = exe->start` for the module `exe` that `dr_get_main_module()`
returns. The assignment is outside the `if (exe != NULL)` and dereferences
`exe` also when it is `NULL`, which is `none`. -/
def dr_client_main (DEBUG : Bool) (g : Globals) (argv : List (List Char))
    (dr_get_main_module : Option module_data_t) : Option Globals :=
  match client_options DEBUG g (argv.drop 1) with
  | none => none
  | some g1 =>
    if g1.only_from_app = true then
      match dr_get_main_module with
      | none => none
      | some exe => some { g1 with exe_start := exe.start }
    else some g1

/-! ## Example inputs -/

/-- The keys and values of `-logdir /tmp/out -debug 1 -memtrace bufsize=4096`. -/
def example_pairs : List (List Char × List Char) :=
  [("logdir".toList, "/tmp/out".toList), ("debug".toList, "1".toList),
   ("memtrace".toList, "bufsize=4096".toList)]

/-- An entry whose arrays hold the strings `k` and `v`, padded with `NUL`. -/
def mk_entry (MAX_STRING_LENGTH : Nat) (k v : List Char) : cmdarguments_t :=
  { name := k ++ List.replicate (MAX_STRING_LENGTH - k.length) NUL
    arguments := v ++ List.replicate (10 * MAX_STRING_LENGTH - v.length) NUL }

/-- A filled table with the four entries `logdir /tmp/out`, `debug 1`,
`memtrace bufsize=4096` and `exec a.out`, for `MAX_STRING_LENGTH = 16`. -/
def example_globals : Globals :=
  { init_globals 16 with
    arguments :=
      [mk_entry 16 "logdir".toList "/tmp/out".toList, mk_entry 16 "debug".toList "1".toList,
       mk_entry 16 "memtrace".toList "bufsize=4096".toList,
       mk_entry 16 "exec".toList "a.out".toList]
      ++ List.replicate 16 (zero_entry 16)
    argument_length := 4 }

/-! ## Basic blocks and the two callbacks of the instruction count -/

/-- An instruction of an `instrlist_t`, as far as the client tells instructions
apart: an application instruction, an instruction that is not an application
instruction (a label or other meta instruction), or the clean call that
`dr_insert_clean_call` inserts, with callee `inscount` and the one argument
`OPND_CREATE_INT32(num_instrs)`. -/
inductive instr_t where
  | app (pc : Nat)
  | non_app (pc : Nat)
  | clean_call_inscount (imm : Int)
deriving DecidableEq, Repr

/-- A basic block, the list behind `instrlist_t *bb`. -/
abbrev instrlist_t := List instr_t

/-- The values of `dr_emit_flags_t`. -/
inductive dr_emit_flags_t where
  | DR_EMIT_DEFAULT
  | DR_EMIT_STORE_TRANSLATIONS
  | DR_EMIT_PERSISTABLE
  | DR_EMIT_MUST_END_TRACE
  | DR_EMIT_GO_NATIVE
deriving DecidableEq, Repr

/-- Whether an instruction is an application instruction, the test behind
`instrlist_first_app` and `instr_get_next_app`. -/
def instr_is_app : instr_t → Bool
  | instr_t.app _ => true
  | _ => false

/-- Whether an instruction is an inserted call of `inscount`. -/
def is_clean_call : instr_t → Bool
  | instr_t.clean_call_inscount _ => true
  | _ => false

/-- The number of application instructions of a block. -/
def app_count (bb : instrlist_t) : Nat :=
  (bb.filter instr_is_app).length

/-- The counting loop of `event_bb_analysis`, from
`instr = instrlist_first_app(bb)` along `instr_get_next_app(instr)`:
`num_instrs++` on a `uint`, which wraps at `2^32`. The second argument is the
value of `num_instrs` so far. -/
def count_loop : instrlist_t → Nat → Nat
  | [], num_instrs => num_instrs
  | instr :: rest, num_instrs =>
    if instr_is_app instr then count_loop rest ((num_instrs + 1) % 2 ^ 32)
    else count_loop rest num_instrs

/-- The callback `event_bb_analysis`. The result is the returned flag and the
value stored in `*user_data`, a pointer-sized unsigned integer with `NULL = 0`.
`dr_lookup_module` is the host's module lookup (`none` for `NULL`), applied to
the start address `dr_fragment_app_pc(tag)` of the block, here `tag`. -/
def event_bb_analysis (g : Globals) (dr_lookup_module : Nat → Option module_data_t)
    (tag : Nat) (bb : instrlist_t) : dr_emit_flags_t × Nat :=
  let counted := (dr_emit_flags_t.DR_EMIT_DEFAULT, count_loop bb 0)
  if g.only_from_app = true then
    match dr_lookup_module tag with
    | some mod =>
      let from_exe := decide (mod.start = g.exe_start)
      if from_exe = false then (dr_emit_flags_t.DR_EMIT_DEFAULT, 0)
      else counted
    | none => counted
  else counted

/-- The operand `OPND_CREATE_INT32(n)`: a signed 32-bit immediate with the bits
of `n`. -/
def OPND_CREATE_INT32 (n : Nat) : Int :=
  if n % 2 ^ 32 < 2 ^ 31 then ((n % 2 ^ 32 : Nat) : Int)
  else ((n % 2 ^ 32 : Nat) : Int) - 2 ^ 32

/-- The call `dr_insert_clean_call(drcontext, bb, instrlist_first_app(bb),
inscount, false, 1, arg)`: the call goes before the first application
instruction of `bb`, and at the end of the list when there is none (`where`
is `NULL`). -/
def dr_insert_clean_call : instrlist_t → Int → instrlist_t
  | [], arg => [instr_t.clean_call_inscount arg]
  | instr :: rest, arg =>
    if instr_is_app instr then instr_t.clean_call_inscount arg :: instr :: rest
    else instr :: dr_insert_clean_call rest arg

/-- The callback `event_app_instruction` for one instruction of `bb`, with
`drmgr_is_first_instr` the host's answer for that instruction. The result is
the returned flag and the block after the call. -/
def event_app_instruction (bb : instrlist_t) (drmgr_is_first_instr : Bool)
    (user_data : Nat) : dr_emit_flags_t × instrlist_t :=
  if drmgr_is_first_instr = false then (dr_emit_flags_t.DR_EMIT_DEFAULT, bb)
  else if user_data = 0 then (dr_emit_flags_t.DR_EMIT_DEFAULT, bb)
  else
    let num_instrs := user_data % 2 ^ 32
    (dr_emit_flags_t.DR_EMIT_DEFAULT,
      dr_insert_clean_call bb (OPND_CREATE_INT32 num_instrs))

/-- The insertion stage the host runs for one dispatch of a unit: the
insertion callback is called once for every instruction the unit had when the
stage began, in order; `first` tells whether the next instruction is the first
one, and the third argument is the block as instrumented so far. -/
def insertion_stage (user_data : Nat) : instrlist_t → Bool → instrlist_t → instrlist_t
  | [], _, bb => bb
  | _ :: rest, first, bb =>
    insertion_stage user_data rest false (event_app_instruction bb first user_data).2

/-- One dispatch of a unit by the host, for the pair of callbacks registered
with `drmgr_register_bb_instrumentation_event`: the analysis callback once,
then the insertion stage with the `user_data` it stored. -/
def dispatch (g : Globals) (dr_lookup_module : Nat → Option module_data_t)
    (tag : Nat) (bb : instrlist_t) : instrlist_t :=
  insertion_stage (event_bb_analysis g dr_lookup_module tag bb).2 bb true bb

/-- The clean call target `inscount`: `global_count += num_instrs` on a
`uint64`. -/
def inscount (g : Globals) (num_instrs : Nat) : Globals :=
  { g with global_count := (g.global_count + num_instrs) % 2 ^ 64 }

/-- The effect of executing one instruction of an instrumented block on the
globals: an inserted call runs `inscount` with its immediate read as `uint`;
the application's own instructions do not touch the client's globals. -/
def exec_instr (g : Globals) : instr_t → Globals
  | instr_t.clean_call_inscount imm => inscount g (imm % 2 ^ 32).toNat
  | _ => g

/-- One execution of an instrumented block from top to bottom. -/
def exec_unit (g : Globals) (bb : instrlist_t) : Globals :=
  bb.foldl exec_instr g

/-- A sequence of unit executions, one after another; every unit `(tag, bb)`
is dispatched and the instrumented block is then executed once. -/
def run_units (dr_lookup_module : Nat → Option module_data_t) :
    Globals → List (Nat × instrlist_t) → Globals
  | g, [] => g
  | g, u :: rest =>
    run_units dr_lookup_module (exec_unit g (dispatch g dr_lookup_module u.1 u.2)) rest

/-- A unit with a label and three application instructions. -/
def example_unit : instrlist_t :=
  [instr_t.non_app 4096, instr_t.app 4096, instr_t.app 4098, instr_t.app 4101]

/-- The globals after `dr_client_main` was started with `-only_from_app` and
the main module begins at `4194304`. -/
def main_only_globals : Globals :=
  { init_globals 16 with only_from_app := true, exe_start := 4194304 }

/-- A module lookup that places every address in a library that begins at
`8388608`. -/
def library_lookup : Nat → Option module_data_t :=
  fun _ => some { start := 8388608 }

/-- A module lookup that finds no module for any address, as for generated
code. -/
def no_module_lookup : Nat → Option module_data_t :=
  fun _ => none

/-- A module lookup that places every address in the main module of
`main_only_globals`. -/
def main_module_lookup : Nat → Option module_data_t :=
  fun _ => some { start := 4194304 }

/-- Three units run one after another: the example unit, a unit without any
instruction, and a unit of one application instruction. -/
def example_run : List (Nat × instrlist_t) :=
  [(4096, example_unit), (8192, []), (12288, [instr_t.app 12288])]

/-! ## Configuration strings cut at every `'-'` -/

/-- The text between one `'-'` and the next: a key without a space and, when a
space follows the key, the value text after that space. -/
abbrev segment := List Char × Option (List Char)

/-- The characters of a segment after its `'-'`. -/
def segment_body : segment → List Char
  | (k, none) => k
  | (k, some v) => k ++ ' ' :: v

/-- The text of the segments, each introduced by its `'-'`. -/
def render_segments : List segment → List Char
  | [] => []
  | s :: rest => '-' :: segment_body s ++ render_segments rest

/-- The characters of a key: none of `'-'`, `' '`, `NUL`. -/
def key_chars (k : List Char) : Prop :=
  ∀ c ∈ k, c ≠ '-' ∧ c ≠ ' ' ∧ c ≠ NUL

/-- The characters of a value text: none of `'-'`, `NUL`. -/
def value_chars (v : List Char) : Prop :=
  ∀ c ∈ v, c ≠ '-' ∧ c ≠ NUL

instance (k : List Char) : Decidable (key_chars k) := by
  unfold key_chars; infer_instance

instance (v : List Char) : Decidable (value_chars v) := by
  unfold value_chars; infer_instance

/-- What keeps the writes for one segment inside the arrays. The key and the
value fit their arrays. When another `'-'` follows (`last = false`), the
terminator goes to `string_index - 1`, so at least one character must have been
collected since `string_index` was last reset: the key is not empty when no
space follows it, and the value text is not empty otherwise. At the end of the
string (`last = true`) the epilog needs room for the terminator. -/
def segment_fits (MAX_STRING_LENGTH : Nat) (last : Bool) : segment → Prop
  | (k, none) =>
    key_chars k ∧ k.length ≤ MAX_STRING_LENGTH ∧ (last = false → k ≠ []) ∧
      (last = true → k.length < 10 * MAX_STRING_LENGTH)
  | (k, some v) =>
    key_chars k ∧ k.length < MAX_STRING_LENGTH ∧ value_chars v ∧
      v.length ≤ 10 * MAX_STRING_LENGTH ∧ (last = false → v ≠ []) ∧
      (last = true → v.length < 10 * MAX_STRING_LENGTH)

/-- The condition `segment_fits` for every segment of a string, the last one
being the one that the end of the string follows. -/
def segments_fit (MAX_STRING_LENGTH : Nat) : List segment → Prop
  | [] => True
  | [s] => segment_fits MAX_STRING_LENGTH true s
  | s :: t :: rest =>
    segment_fits MAX_STRING_LENGTH false s ∧ segments_fit MAX_STRING_LENGTH (t :: rest)

instance segment_fits_decidable (m : Nat) (last : Bool) :
    (s : segment) → Decidable (segment_fits m last s)
  | (k, none) =>
    inferInstanceAs (Decidable (key_chars k ∧ k.length ≤ m ∧ (last = false → k ≠ []) ∧
      (last = true → k.length < 10 * m)))
  | (k, some v) =>
    inferInstanceAs (Decidable (key_chars k ∧ k.length < m ∧ value_chars v ∧
      v.length ≤ 10 * m ∧ (last = false → v ≠ []) ∧ (last = true → v.length < 10 * m)))

instance segments_fit_decidable (m : Nat) : (l : List segment) → Decidable (segments_fit m l)
  | [] => isTrue trivial
  | [s] => inferInstanceAs (Decidable (segment_fits m true s))
  | s :: t :: rest =>
    @instDecidableAnd _ _ (segment_fits_decidable m false s)
      (segments_fit_decidable m (t :: rest))

/-- The declared sizes of the table `arguments`: `ARGUMENT_LENGTH` entries with a
`name` array of `MAX_STRING_LENGTH` and an `arguments` array of
`10 * MAX_STRING_LENGTH` characters. -/
def table_sized (MAX_STRING_LENGTH : Nat) (arr : List cmdarguments_t) : Prop :=
  arr.length = ARGUMENT_LENGTH ∧
  ∀ e ∈ arr, e.name.length = MAX_STRING_LENGTH ∧
    e.arguments.length = 10 * MAX_STRING_LENGTH

/-- The segments of `x-logdir /tmp/my-dir`, after the ignored `x`. -/
def example_segments : List segment :=
  [("logdir".toList, some "/tmp/my".toList), ("dir".toList, none)]

/-! ## `setupInsPasses`: the table of instrumentation passes -/

/-- The struct `drmgr_priority_t` as `setupInsPasses` fills it (without the
`struct_size` field): the name of the operation, the optional names of the
operation it should precede and of the one it should follow, and the numeric
priority. -/
structure drmgr_priority_t where
  name : String
  before : Option String
  after : Option String
  priority : Int
deriving DecidableEq, Repr

/-- The struct `_instrumentation_pass_t`. A callback field holds the name of the
function assigned to it, `none` for `NULL`. -/
structure instrumentation_pass_t where
  name : String
  init_func : Option String
  analysis_bb : Option String
  instrumentation_bb : Option String
  app2app_bb : Option String
  priority : drmgr_priority_t
  thread_init : Option String
  thread_exit : Option String
  process_exit : Option String
  module_load : Option String
  module_unload : Option String
deriving DecidableEq, Repr

/-- The value that `setupInsPasses` assigns to `pass_length`. -/
def pass_length : Nat := 10

/-- The function `setupInsPasses`: the entries `ins_pass[0]` to `ins_pass[9]`, in
the order of their indices. Every entry copies the template
`{ "default", DRMGR_PRIORITY_NAME_DRWRAP, NULL, 0 }` and then sets its own
`priority.name` and `priority.priority`. The macro `DRMGR_PRIORITY_NAME_DRWRAP`
comes from `drwrap.h` and is a parameter. -/
def setupInsPasses (DRMGR_PRIORITY_NAME_DRWRAP : String) : List instrumentation_pass_t :=
  let priority : drmgr_priority_t :=
    { name := "default", before := some DRMGR_PRIORITY_NAME_DRWRAP, after := none,
      priority := 0 }
  [ { name := "profile"
      priority := { priority with name := "profile", priority := 1 }
      init_func := some "bbinfo_init"
      app2app_bb := some "bbinfo_bb_app2app"
      analysis_bb := some "bbinfo_bb_analysis"
      instrumentation_bb := some "bbinfo_bb_instrumentation"
      thread_init := some "bbinfo_thread_init"
      thread_exit := some "bbinfo_thread_exit"
      process_exit := some "bbinfo_exit_event"
      module_load := none
      module_unload := none },
    { name := "cpuid"
      priority := { priority with name := "cpuid", priority := 3 }
      init_func := some "cpuid_init"
      app2app_bb := some "cpuid_bb_app2app"
      analysis_bb := some "cpuid_bb_analysis"
      instrumentation_bb := some "cpuid_bb_instrumentation"
      thread_init := some "cpuid_thread_init"
      thread_exit := some "cpuid_thread_exit"
      process_exit := some "cpuid_exit_event"
      module_load := none
      module_unload := none },
    { name := "memtrace"
      priority := { priority with name := "memtrace", priority := 3 }
      init_func := some "memtrace_init"
      app2app_bb := some "memtrace_bb_app2app"
      analysis_bb := some "memtrace_bb_analysis"
      instrumentation_bb := some "memtrace_bb_instrumentation"
      thread_init := some "memtrace_thread_init"
      thread_exit := some "memtrace_thread_exit"
      process_exit := some "memtrace_exit_event"
      module_load := none
      module_unload := none },
    { name := "inscount"
      priority := { priority with name := "inscount", priority := 3 }
      init_func := some "inscount_init"
      app2app_bb := none
      analysis_bb := some "inscount_bb_analysis"
      instrumentation_bb := some "inscount_bb_instrumentation"
      thread_init := none
      thread_exit := none
      process_exit := some "inscount_exit_event"
      module_load := none
      module_unload := none },
    { name := "instrace"
      priority := { priority with name := "instrace", priority := 3 }
      init_func := some "instrace_init"
      app2app_bb := some "instrace_bb_app2app"
      analysis_bb := some "instrace_bb_analysis"
      instrumentation_bb := some "instrace_bb_instrumentation"
      thread_init := some "instrace_thread_init"
      thread_exit := some "instrace_thread_exit"
      process_exit := some "instrace_exit_event"
      module_load := none
      module_unload := none },
    { name := "functrace"
      priority := { priority with name := "functrace", priority := 4 }
      init_func := some "functrace_init"
      app2app_bb := some "functrace_bb_app2app"
      analysis_bb := some "functrace_bb_analysis"
      instrumentation_bb := some "functrace_bb_instrumentation"
      thread_init := some "functrace_thread_init"
      thread_exit := some "functrace_thread_exit"
      process_exit := some "functrace_exit_event"
      module_load := none
      module_unload := none },
    { name := "funcwrap"
      priority := { priority with name := "funcwrap", priority := 0 }
      init_func := some "funcwrap_init"
      app2app_bb := none
      analysis_bb := none
      instrumentation_bb := some "funcwrap_bb_instrumentation"
      thread_init := some "funcwrap_thread_init"
      thread_exit := some "funcwrap_thread_exit"
      process_exit := some "funcwrap_exit_event"
      module_load := some "funcwrap_module_load"
      module_unload := none },
    { name := "memdump"
      priority := { priority with name := "memdump", priority := 0 }
      init_func := some "memdump_init"
      app2app_bb := none
      analysis_bb := none
      instrumentation_bb := some "memdump_bb_instrumentation"
      thread_init := some "memdump_thread_init"
      thread_exit := some "memdump_thread_exit"
      process_exit := some "memdump_exit_event"
      module_load := some "memdump_module_load"
      module_unload := none },
    { name := "funcreplace"
      priority := { priority with name := "funcreplace", priority := 0 }
      init_func := some "funcreplace_init"
      app2app_bb := none
      analysis_bb := none
      instrumentation_bb := some "funcreplace_bb_instrumentation"
      thread_init := some "funcreplace_thread_init"
      thread_exit := some "funcreplace_thread_exit"
      process_exit := some "funcreplace_exit_event"
      module_load := some "funcreplace_module_load"
      module_unload := none },
    { name := "misc"
      priority := { priority with name := "misc", priority := 0 }
      init_func := some "misc_init"
      app2app_bb := none
      analysis_bb := none
      instrumentation_bb := some "misc_bb_instrumentation"
      thread_init := some "misc_thread_init"
      thread_exit := some "misc_thread_exit"
      process_exit := some "misc_exit_event"
      module_load := none
      module_unload := none } ]

/-! ## The pass order -/

/-- Modelled from the spec: the edges of `compute_order` (section 4.2), which
the sources do not contain. There is an edge from the pass at index `i` to the
pass at index `j`, "`i` must execute before `j`", when `i` declares that it
precedes `j` or `j` declares that it follows `i`. A declaration that names no
registered pass gives no edge: of the two policies the spec leaves open for
such a reference, this is the one that ignores it. -/
def pass_edge (passes : List instrumentation_pass_t) (i j : Nat) : Bool :=
  match passes[i]?, passes[j]? with
  | some u, some v =>
    decide (u.priority.before = some v.priority.name) ||
      decide (v.priority.after = some u.priority.name)
  | _, _ => false

/-- Modelled from the spec: the selection step of `compute_order`, the pass of
lowest `(priority, registration_index)` among the indices `ready`, which are in
ascending order. -/
def lowest (prio : List Int) (ready : List Nat) : Option Nat :=
  ready.foldl
    (fun best j =>
      match best with
      | none => some j
      | some b => if prio.getD j 0 < prio.getD b 0 then some j else some b)
    none

/-- Modelled from the spec: the stable topological sort of `compute_order`. At
each step the passes whose predecessors are all placed are the ready ones, and
the lowest of them is placed next; when passes remain and none is ready, the
constraints have a cycle and the result is `none` (`OrderingConflict`). The
first argument bounds the number of steps, one per pass. -/
def order_from (prio : List Int) (edge : Nat → Nat → Bool) :
    Nat → List Nat → List Nat → Option (List Nat)
  | 0, remaining, placed => if remaining = [] then some placed else none
  | fuel + 1, remaining, placed =>
    if remaining = [] then some placed
    else
      match lowest prio
          (remaining.filter (fun j => remaining.all (fun i => !edge i j))) with
      | none => none
      | some j => order_from prio edge fuel (remaining.erase j) (placed ++ [j])

/-- Modelled from the spec: `compute_order(passes)` of section 4.2, the total
order of the registered passes, which the sources do not contain. -/
def compute_order (passes : List instrumentation_pass_t) :
    Option (List instrumentation_pass_t) :=
  (order_from (passes.map (fun p => p.priority.priority)) (pass_edge passes)
      passes.length (List.range passes.length) []).map
    (fun order => order.filterMap (fun i => passes[i]?))

/-! ## Proofs -/

set_option maxRecDepth 100000

/-! ## Lemmas on arrays and strings -/

theorem store_at (a b : List Char) (x c : Char) :
    store (a ++ x :: b) (a.length : Int) c = some (a ++ c :: b) := by
  have h : (a.length : Int) < ((a ++ x :: b).length : Int) := by
    simp only [List.length_append, List.length_cons]; omega
  simp [store, h]

theorem store_name_at (arr : List cmdarguments_t) (j : Nat) (e : cmdarguments_t)
    (a b : List Char) (x c : Char) (h : arr[j]? = some e) (hn : e.name = a ++ x :: b) :
    store_name arr (j : Int) (a.length : Int) c
      = some (arr.set j { e with name := a ++ c :: b }) := by
  simp [store_name, h, hn, store_at]

theorem store_arguments_at (arr : List cmdarguments_t) (j : Nat) (e : cmdarguments_t)
    (a b : List Char) (x c : Char) (h : arr[j]? = some e) (hn : e.arguments = a ++ x :: b) :
    store_arguments arr (j : Int) (a.length : Int) c
      = some (arr.set j { e with arguments := a ++ c :: b }) := by
  simp [store_arguments, h, hn, store_at]

theorem set_of_getElem? {α : Type} (l : List α) (j : Nat) (e : α) (h : l[j]? = some e) :
    l.set j e = l := by
  induction l generalizing j with
  | nil => simp
  | cons x xs ih =>
    cases j with
    | zero => simp at h; simp [h]
    | succ j => simp at h; simp [ih j h]

theorem cstr_append_nul (v t : List Char) (h : NUL ∉ v) : cstr (v ++ NUL :: t) = v := by
  induction v with
  | nil => simp [cstr]
  | cons c cs ih =>
    simp only [List.mem_cons, not_or] at h
    have hc : c ≠ NUL := fun hh => h.1 hh.symm
    have := ih h.2
    simp [cstr] at this ⊢
    simp [hc, this]

/-! ## The loop on a key, on a value, and on one `-key value` pair -/

theorem parse_loop_name (k : List Char) :
    ∀ (rest : List Char) (arr : List cmdarguments_t) (j : Nat) (e : cmdarguments_t)
      (a pad : List Char),
      (∀ c ∈ k, c ≠ '-' ∧ c ≠ ' ' ∧ c ≠ NUL) → arr[j]? = some e → e.name = a ++ pad →
      k.length ≤ pad.length →
      parse_loop (k ++ rest)
        { arguments := arr, string_index := (a.length : Int), index := (j : Int),
          name_collect_state := true, arguments_collect_state := false }
      = parse_loop rest
        { arguments := arr.set j { e with name := a ++ k ++ pad.drop k.length },
          string_index := ((a ++ k).length : Int), index := (j : Int),
          name_collect_state := true, arguments_collect_state := false } := by
  induction k with
  | nil =>
    intro rest arr j e a pad _ h hn _
    have he : ({ e with name := a ++ pad } : cmdarguments_t) = e := by
      cases e; simp_all
    simp [he, set_of_getElem? arr j e h]
  | cons c cs ih =>
    intro rest arr j e a pad hk h hn hlen
    obtain ⟨hc1, hc2, hc3⟩ := hk c (List.mem_cons_self _ _)
    cases pad with
    | nil => simp at hlen
    | cons x pad1 =>
      have hj : j < arr.length := by
        rcases Nat.lt_or_ge j arr.length with hlt | hge
        · exact hlt
        · rw [List.getElem?_eq_none hge] at h; cases h
      have hstep : parse_step
          { arguments := arr, string_index := (a.length : Int), index := (j : Int),
            name_collect_state := true, arguments_collect_state := false } c
          = some { arguments := arr.set j { e with name := a ++ c :: pad1 },
                   string_index := ((a ++ [c]).length : Int), index := (j : Int),
                   name_collect_state := true, arguments_collect_state := false } := by
        simp [parse_step, hc1, hc2, store_name_at arr j e a pad1 x c h hn]
      have hih := ih rest (arr.set j { e with name := a ++ c :: pad1 }) j
        { e with name := a ++ c :: pad1 } (a ++ [c]) pad1
        (fun d hd => hk d (List.mem_cons_of_mem _ hd))
        (by simp [hj]) (by simp) (by simpa using hlen)
      rw [List.cons_append, parse_loop, if_neg hc3, hstep]
      dsimp only
      rw [hih]
      simp [List.set_set]

theorem parse_loop_value (v : List Char) :
    ∀ (rest : List Char) (arr : List cmdarguments_t) (j : Nat) (e : cmdarguments_t)
      (a pad : List Char),
      (∀ c ∈ v, c ≠ '-' ∧ c ≠ NUL) → arr[j]? = some e → e.arguments = a ++ pad →
      v.length ≤ pad.length →
      parse_loop (v ++ rest)
        { arguments := arr, string_index := (a.length : Int), index := (j : Int),
          name_collect_state := false, arguments_collect_state := true }
      = parse_loop rest
        { arguments := arr.set j { e with arguments := a ++ v ++ pad.drop v.length },
          string_index := ((a ++ v).length : Int), index := (j : Int),
          name_collect_state := false, arguments_collect_state := true } := by
  induction v with
  | nil =>
    intro rest arr j e a pad _ h hn _
    have he : ({ e with arguments := a ++ pad } : cmdarguments_t) = e := by
      cases e; simp_all
    simp [he, set_of_getElem? arr j e h]
  | cons c cs ih =>
    intro rest arr j e a pad hk h hn hlen
    obtain ⟨hc1, hc3⟩ := hk c (List.mem_cons_self _ _)
    cases pad with
    | nil => simp at hlen
    | cons x pad1 =>
      have hj : j < arr.length := by
        rcases Nat.lt_or_ge j arr.length with hlt | hge
        · exact hlt
        · rw [List.getElem?_eq_none hge] at h; cases h
      have hstep : parse_step
          { arguments := arr, string_index := (a.length : Int), index := (j : Int),
            name_collect_state := false, arguments_collect_state := true } c
          = some { arguments := arr.set j { e with arguments := a ++ c :: pad1 },
                   string_index := ((a ++ [c]).length : Int), index := (j : Int),
                   name_collect_state := false, arguments_collect_state := true } := by
        simp [parse_step, hc1, store_arguments_at arr j e a pad1 x c h hn]
      have hih := ih rest (arr.set j { e with arguments := a ++ c :: pad1 }) j
        { e with arguments := a ++ c :: pad1 } (a ++ [c]) pad1
        (fun d hd => hk d (List.mem_cons_of_mem _ hd))
        (by simp [hj]) (by simp) (by simpa using hlen)
      rw [List.cons_append, parse_loop, if_neg hc3, hstep]
      dsimp only
      rw [hih]
      simp [List.set_set]

theorem drop_eq_cons (buf : List Char) (n : Nat) (h : n < buf.length) :
    ∃ x, buf.drop n = x :: buf.drop (n + 1) :=
  ⟨buf[n], by simp⟩

theorem parse_loop_pair (k v rest : List Char) (arr : List cmdarguments_t) (j : Nat)
    (e : cmdarguments_t)
    (hk : ∀ c ∈ k, c ≠ '-' ∧ c ≠ ' ' ∧ c ≠ NUL) (hv : ∀ c ∈ v, c ≠ '-' ∧ c ≠ NUL)
    (h : arr[j]? = some e) (hkl : k.length < e.name.length)
    (hvl : v.length ≤ e.arguments.length) :
    parse_loop (k ++ ' ' :: (v ++ rest))
      { arguments := arr, string_index := 0, index := (j : Int),
        name_collect_state := true, arguments_collect_state := false }
    = parse_loop rest
      { arguments := arr.set j
          { name := k ++ NUL :: e.name.drop (k.length + 1),
            arguments := v ++ e.arguments.drop v.length },
        string_index := (v.length : Int), index := (j : Int),
        name_collect_state := false, arguments_collect_state := true } := by
  have hj : j < arr.length := by
    rcases Nat.lt_or_ge j arr.length with hlt | hge
    · exact hlt
    · rw [List.getElem?_eq_none hge] at h; cases h
  obtain ⟨x, hx⟩ := drop_eq_cons e.name k.length hkl
  have h1 := parse_loop_name k (' ' :: (v ++ rest)) arr j e [] e.name hk h (by simp)
    (Nat.le_of_lt hkl)
  simp only [List.length_nil, Nat.cast_zero, List.nil_append] at h1
  rw [h1, hx]
  have hsp : (' ' : Char) ≠ NUL := by decide
  have hstep : parse_step
      { arguments := arr.set j { e with name := k ++ x :: e.name.drop (k.length + 1) },
        string_index := (k.length : Int), index := (j : Int),
        name_collect_state := true, arguments_collect_state := false } ' '
      = some { arguments := arr.set j { e with name := k ++ NUL :: e.name.drop (k.length + 1) },
               string_index := 0, index := (j : Int),
               name_collect_state := false, arguments_collect_state := true } := by
    have hs := store_name_at (arr.set j { e with name := k ++ x :: e.name.drop (k.length + 1) })
      j { e with name := k ++ x :: e.name.drop (k.length + 1) } k
      (e.name.drop (k.length + 1)) x NUL (by simp [hj]) rfl
    have hne : (' ' : Char) ≠ '-' := by decide
    simp [parse_step, hne, hs, List.set_set]
  rw [parse_loop, if_neg hsp, hstep]
  dsimp only
  have h2 := parse_loop_value v rest
    (arr.set j { e with name := k ++ NUL :: e.name.drop (k.length + 1) }) j
    { e with name := k ++ NUL :: e.name.drop (k.length + 1) } [] e.arguments hv
    (by simp [hj]) (by simp) hvl
  simp only [List.length_nil, Nat.cast_zero, List.nil_append] at h2
  rw [h2]
  simp [List.set_set]

theorem parse_from_cons (c : Char) (t : List Char) (st st1 : ParseState) (hc : c ≠ NUL)
    (h : parse_step st c = some st1) : parse_from (c :: t) st = parse_from t st1 := by
  simp [parse_from, parse_loop, hc, h]

theorem parse_from_of_loop (x y : List Char) (st st1 : ParseState)
    (h : parse_loop x st = parse_loop y st1) : parse_from x st = parse_from y st1 := by
  simp [parse_from, h]

theorem lt_length_of_getElem? {α : Type} (l : List α) (j : Nat) (e : α) (h : l[j]? = some e) :
    j < l.length := by
  rcases Nat.lt_or_ge j l.length with hlt | hge
  · exact hlt
  · rw [List.getElem?_eq_none hge] at h; cases h

theorem parse_from_tail (M : Nat) (ps : List (List Char × List Char)) :
    ∀ (arr : List cmdarguments_t) (j : Nat) (e : cmdarguments_t) (a b : List Char) (x : Char),
      arr[j]? = some e → e.arguments = a ++ x :: b → j + ps.length < arr.length →
      (∀ i e1, j < i → arr[i]? = some e1 →
        e1.name.length = M ∧ e1.arguments.length = 10 * M) →
      (∀ p ∈ ps, pair_fits M p) →
      ∃ arr1,
        parse_from (render_tail ps)
          { arguments := arr, string_index := (a.length : Int), index := (j : Int),
            name_collect_state := false, arguments_collect_state := true }
          = some (arr1, ((j + ps.length + 1 : Nat) : Int)) ∧
        arr1.length = arr.length ∧
        (∀ i, i < j → arr1[i]? = arr[i]?) ∧
        arr1[j]? = some { e with arguments := a ++ NUL :: b } ∧
        (∀ i p, ps[i]? = some p →
          ∃ e1, arr1[j + 1 + i]? = some e1 ∧ cstr e1.name = p.1 ∧ cstr e1.arguments = p.2) := by
  induction ps with
  | nil =>
    intro arr j e a b x h hn hlen _ _
    have hj : j < arr.length := lt_length_of_getElem? arr j e h
    refine ⟨arr.set j { e with arguments := a ++ NUL :: b }, ?_, by simp, ?_, by simp [hj], ?_⟩
    · simp [render_tail, parse_from, parse_loop, parse_epilog,
        store_arguments_at arr j e a b x NUL h hn]
    · intro i hi
      rw [List.getElem?_set_ne (Nat.ne_of_gt hi)]
    · intro i p hp
      simp at hp
  | cons p ps ih =>
    intro arr j e a b x h hn hlen hsz hfit
    obtain ⟨hk, hkl, hv, hvl⟩ := hfit p (List.mem_cons_self _ _)
    have hj : j < arr.length := lt_length_of_getElem? arr j e h
    have hlen1 : j + 1 + ps.length < arr.length := by
      simp only [List.length_cons] at hlen; omega
    have hj1 : j + 1 < arr.length := by omega
    -- the space that ends the previous value is stored as a value character
    have hsp : (' ' : Char) ≠ NUL := by decide
    have hsd : (' ' : Char) ≠ '-' := by decide
    have hdn : ('-' : Char) ≠ NUL := by decide
    have hstep1 : parse_step
        { arguments := arr, string_index := (a.length : Int), index := (j : Int),
          name_collect_state := false, arguments_collect_state := true } ' '
        = some { arguments := arr.set j { e with arguments := a ++ ' ' :: b },
                 string_index := (a.length : Int) + 1, index := (j : Int),
                 name_collect_state := false, arguments_collect_state := true } := by
      simp [parse_step, hsd, store_arguments_at arr j e a b x ' ' h hn]
    -- the dash overwrites it with the terminator and opens the next entry
    have hstep2 : parse_step
        { arguments := arr.set j { e with arguments := a ++ ' ' :: b },
          string_index := (a.length : Int) + 1, index := (j : Int),
          name_collect_state := false, arguments_collect_state := true } '-'
        = some { arguments := arr.set j { e with arguments := a ++ NUL :: b },
                 string_index := 0, index := ((j + 1 : Nat) : Int),
                 name_collect_state := true, arguments_collect_state := false } := by
      have hs := store_arguments_at (arr.set j { e with arguments := a ++ ' ' :: b }) j
        { e with arguments := a ++ ' ' :: b } a b ' ' NUL (by simp [hj]) rfl
      simp [parse_step, hs, List.set_set]
    -- the entry that the next pair fills
    obtain ⟨e1, he1⟩ : ∃ e1, arr[j + 1]? = some e1 :=
      ⟨arr[j + 1], List.getElem?_eq_getElem hj1⟩
    obtain ⟨hn1, ha1⟩ := hsz (j + 1) e1 (Nat.lt_succ_self j) he1
    have he1B : (arr.set j { e with arguments := a ++ NUL :: b })[j + 1]? = some e1 := by
      rw [List.getElem?_set_ne (Nat.ne_of_lt (Nat.lt_succ_self j))]; exact he1
    have hpair := parse_loop_pair p.1 p.2 (render_tail ps)
      (arr.set j { e with arguments := a ++ NUL :: b }) (j + 1) e1 hk hv he1B
      (by omega) (by omega)
    obtain ⟨x1, hx1⟩ := drop_eq_cons e1.arguments p.2.length (by omega)
    rw [hx1] at hpair
    -- the remaining pairs
    obtain ⟨arr1, hrun, hl, hbefore, hat, hrest⟩ := ih
      ((arr.set j { e with arguments := a ++ NUL :: b }).set (j + 1)
        { name := p.1 ++ NUL :: e1.name.drop (p.1.length + 1),
          arguments := p.2 ++ x1 :: e1.arguments.drop (p.2.length + 1) })
      (j + 1)
      { name := p.1 ++ NUL :: e1.name.drop (p.1.length + 1),
        arguments := p.2 ++ x1 :: e1.arguments.drop (p.2.length + 1) }
      p.2 (e1.arguments.drop (p.2.length + 1)) x1
      (by simp [hj1]) rfl (by simpa using hlen1)
      (by
        intro i e2 hi h2
        rw [List.getElem?_set_ne (by omega), List.getElem?_set_ne (by omega)] at h2
        exact hsz i e2 (by omega) h2)
      (fun q hq => hfit q (List.mem_cons_of_mem _ hq))
    refine ⟨arr1, ?_, by simpa using hl, ?_, ?_, ?_⟩
    · have hrt : render_tail (p :: ps)
          = ' ' :: '-' :: (p.1 ++ ' ' :: (p.2 ++ render_tail ps)) := by
        simp [render_tail, render_pair]
      rw [hrt, parse_from_cons _ _ _ _ hsp hstep1, parse_from_cons _ _ _ _ hdn hstep2,
        parse_from_of_loop _ _ _ _ hpair, hrun]
      simp only [List.length_cons]
      congr 2
      omega
    · intro i hi
      rw [hbefore i (by omega), List.getElem?_set_ne (by omega),
        List.getElem?_set_ne (by omega)]
    · rw [hbefore j (Nat.lt_succ_self j), List.getElem?_set_ne (by omega)]
      simp [hj]
    · intro i q hq
      cases i with
      | zero =>
        simp only [List.getElem?_cons_zero, Option.some.injEq] at hq
        subst hq
        refine ⟨_, hat, ?_, ?_⟩
        · exact cstr_append_nul _ _ (fun hm => (hk _ hm).2.2 rfl)
        · exact cstr_append_nul _ _ (fun hm => (hv _ hm).2 rfl)
      | succ i =>
        simp only [List.getElem?_cons_succ] at hq
        obtain ⟨e2, h2, hc⟩ := hrest i q hq
        refine ⟨e2, ?_, hc⟩
        rw [← h2]
        congr 1
        omega

theorem parse_from_render (M : Nat) (p : List Char × List Char)
    (ps : List (List Char × List Char)) (arr : List cmdarguments_t)
    (hlen : ps.length < arr.length)
    (hsz : ∀ (i : Nat) (e1 : cmdarguments_t), arr[i]? = some e1 → e1.name.length = M ∧ e1.arguments.length = 10 * M)
    (hfit : ∀ q ∈ p :: ps, pair_fits M q) :
    ∃ arr1,
      parse_from (render (p :: ps)) (parse_start arr)
        = some (arr1, (((p :: ps).length : Nat) : Int)) ∧
      arr1.length = arr.length ∧
      (∀ (i : Nat) (q : List Char × List Char), (p :: ps)[i]? = some q →
        ∃ e1 : cmdarguments_t, arr1[i]? = some e1 ∧ cstr e1.name = q.1 ∧ cstr e1.arguments = q.2) := by
  obtain ⟨hk, hkl, hv, hvl⟩ := hfit p (List.mem_cons_self _ _)
  have h0 : 0 < arr.length := by omega
  obtain ⟨e0, he0⟩ : ∃ e0, arr[0]? = some e0 := ⟨arr[0], List.getElem?_eq_getElem h0⟩
  obtain ⟨hn0, ha0⟩ := hsz 0 e0 he0
  have hdn : ('-' : Char) ≠ NUL := by decide
  have hstep : parse_step (parse_start arr) '-'
      = some { arguments := arr, string_index := 0, index := ((0 : Nat) : Int),
               name_collect_state := true, arguments_collect_state := false } := by
    simp [parse_step, parse_start]
  have hpair := parse_loop_pair p.1 p.2 (render_tail ps) arr 0 e0 hk hv he0
    (by omega) (by omega)
  obtain ⟨x0, hx0⟩ := drop_eq_cons e0.arguments p.2.length (by omega)
  rw [hx0] at hpair
  obtain ⟨arr1, hrun, hl, _, hat, hrest⟩ := parse_from_tail M ps
    (arr.set 0 { name := p.1 ++ NUL :: e0.name.drop (p.1.length + 1),
                 arguments := p.2 ++ x0 :: e0.arguments.drop (p.2.length + 1) })
    0
    { name := p.1 ++ NUL :: e0.name.drop (p.1.length + 1),
      arguments := p.2 ++ x0 :: e0.arguments.drop (p.2.length + 1) }
    p.2 (e0.arguments.drop (p.2.length + 1)) x0
    (by simp [h0]) rfl (by simpa using hlen)
    (by
      intro i e2 hi h2
      rw [List.getElem?_set_ne (by omega)] at h2
      exact hsz i e2 h2)
    (fun q hq => hfit q (List.mem_cons_of_mem _ hq))
  refine ⟨arr1, ?_, by simpa using hl, ?_⟩
  · have hr : render (p :: ps) = '-' :: (p.1 ++ ' ' :: (p.2 ++ render_tail ps)) := by
      simp [render, render_pair]
    rw [hr, parse_from_cons _ _ _ _ hdn hstep, parse_from_of_loop _ _ _ _ hpair, hrun]
    simp only [List.length_cons]
    congr 2
    omega
  · intro i q hq
    cases i with
    | zero =>
      simp only [List.getElem?_cons_zero, Option.some.injEq] at hq
      subst hq
      refine ⟨_, hat, ?_, ?_⟩
      · exact cstr_append_nul _ _ (fun hm => (hk _ hm).2.2 rfl)
      · exact cstr_append_nul _ _ (fun hm => (hv _ hm).2 rfl)
    | succ i =>
      simp only [List.getElem?_cons_succ] at hq
      obtain ⟨e2, h2, hc⟩ := hrest i q hq
      refine ⟨e2, ?_, hc⟩
      rw [← h2]
      congr 1
      omega

theorem pair_fits_of_ok (M : Nat) (p : List Char × List Char) (hk : key_ok M p.1)
    (hv : value_ok M p.2) : pair_fits M p := by
  obtain ⟨_, h1, h2, h3, h4⟩ := hk
  obtain ⟨_, h5, h6, _, _, h7⟩ := hv
  refine ⟨?_, h4, ?_, h7⟩
  · intro c hc
    exact ⟨fun h => h2 (h ▸ hc), fun h => h1 (h ▸ hc), fun h => h3 (h ▸ hc)⟩
  · intro c hc
    exact ⟨fun h => h5 (h ▸ hc), fun h => h6 (h ▸ hc)⟩

theorem init_globals_entry (M i : Nat) (e : cmdarguments_t)
    (h : (init_globals M).arguments[i]? = some e) :
    e.name.length = M ∧ e.arguments.length = 10 * M := by
  have hm : e ∈ (init_globals M).arguments := List.mem_iff_getElem?.mpr ⟨i, h⟩
  simp only [init_globals, List.mem_replicate] at hm
  rw [hm.2]
  simp [zero_entry]

/-! ## Lemmas on `process_global_arguments` -/

theorem process_entry_frame (M : Nat) (g : Globals) (e : cmdarguments_t) :
    (process_entry M g e).arguments = g.arguments ∧
    (process_entry M g e).argument_length = g.argument_length ∧
    (process_entry M g e).only_from_app = g.only_from_app ∧
    (process_entry M g e).exe_start = g.exe_start ∧
    (process_entry M g e).global_count = g.global_count := by
  unfold process_entry
  split_ifs <;> simp

theorem foldl_process_entry_frame (M : Nat) (es : List cmdarguments_t) :
    ∀ g : Globals,
      (es.foldl (process_entry M) g).arguments = g.arguments ∧
      (es.foldl (process_entry M) g).argument_length = g.argument_length ∧
      (es.foldl (process_entry M) g).only_from_app = g.only_from_app ∧
      (es.foldl (process_entry M) g).exe_start = g.exe_start ∧
      (es.foldl (process_entry M) g).global_count = g.global_count := by
  induction es with
  | nil => intro g; simp
  | cons e es ih =>
    intro g
    obtain ⟨h1, h2, h3, h4, h5⟩ := ih (process_entry M g e)
    obtain ⟨k1, k2, k3, k4, k5⟩ := process_entry_frame M g e
    simp only [List.foldl_cons]
    exact ⟨h1.trans k1, h2.trans k2, h3.trans k3, h4.trans k4, h5.trans k5⟩

theorem process_global_arguments_frame (M : Nat) (g : Globals) :
    (process_global_arguments M g).arguments = g.arguments ∧
    (process_global_arguments M g).argument_length = g.argument_length ∧
    (process_global_arguments M g).only_from_app = g.only_from_app ∧
    (process_global_arguments M g).exe_start = g.exe_start ∧
    (process_global_arguments M g).global_count = g.global_count :=
  foldl_process_entry_frame M _ g

theorem doCommandLineArgProcessing_render (M : Nat) (pairs : List (List Char × List Char))
    (h1 : 1 ≤ pairs.length) (h2 : pairs.length ≤ ARGUMENT_LENGTH)
    (hfit : ∀ p ∈ pairs, pair_fits M p) :
    ∃ arr1 : List cmdarguments_t,
      doCommandLineArgProcessing M (render pairs) (init_globals M)
        = some (process_global_arguments M
            { init_globals M with arguments := arr1, argument_length := (pairs.length : Int) }) ∧
      arr1.length = ARGUMENT_LENGTH ∧
      (∀ (i : Nat) (q : List Char × List Char), pairs[i]? = some q →
        ∃ e1 : cmdarguments_t, arr1[i]? = some e1 ∧ cstr e1.name = q.1 ∧
          cstr e1.arguments = q.2) := by
  cases pairs with
  | nil => simp at h1
  | cons p ps =>
    have hl : (init_globals M).arguments.length = ARGUMENT_LENGTH := by simp [init_globals]
    obtain ⟨arr1, hrun, hlen, hent⟩ := parse_from_render M p ps (init_globals M).arguments
      (by rw [hl]; simp only [List.length_cons] at h2; omega)
      (fun i e1 h => init_globals_entry M i e1 h) hfit
    refine ⟨arr1, ?_, hlen.trans hl, hent⟩
    simp [doCommandLineArgProcessing, hrun]

theorem cstr_take (buf : List Char) :
    ∀ n : Nat, (cstr buf).length < n → cstr (buf.take n) = cstr buf := by
  induction buf with
  | nil => intro n _; simp [cstr]
  | cons c cs ih =>
    intro n hn
    cases n with
    | zero => simp at hn
    | succ n =>
      by_cases hc : c = NUL
      · simp [cstr, hc]
      · have hcs : cstr (c :: cs) = c :: cstr cs := by simp [cstr, hc]
        rw [hcs] at hn
        simp only [List.length_cons] at hn
        have := ih n (by omega)
        simp only [List.take_succ_cons]
        have hcs2 : cstr (c :: cs.take n) = c :: cstr (cs.take n) := by simp [cstr, hc]
        rw [hcs2, hcs, this]

theorem cstr_length_le (buf : List Char) : (cstr buf).length ≤ buf.length :=
  (List.takeWhile_sublist _).length_le

theorem strncpy_length (dest src : List Char) (n : Nat) (h : dest.length = n) :
    (strncpy dest src n).length = n := by
  have h1 : (cstr (src.take n)).length ≤ n :=
    Nat.le_trans (cstr_length_le _) (List.length_take_le _ _)
  simp only [strncpy, List.length_append, List.length_replicate, List.length_drop]
  omega

theorem strncpy_of_short (dest src : List Char) (n : Nat) (h : dest.length = n)
    (hs : (cstr src).length < n) :
    strncpy dest src n = cstr src ++ List.replicate (n - (cstr src).length) NUL := by
  have hd : dest.drop n = [] := List.drop_eq_nil_of_le (Nat.le_of_eq h)
  simp [strncpy, cstr_take src n hs, hd]

theorem digit_flag_eq (c : Char) : digit_flag c = !decide (c = '0') := by
  have hinj : c.toNat = ('0' : Char).toNat → c = '0' := by
    intro h
    apply Char.eq_of_val_eq
    apply UInt32.ext
    exact h
  by_cases hc : c = '0'
  · subst hc
    decide
  · have hne : c.toNat ≠ ('0' : Char).toNat := fun h => hc (hinj h)
    have h48 : ('0' : Char).toNat = 48 := by decide
    rw [h48] at hne
    have : ¬ ((c.toNat : Int) - 48 = 0) := by omega
    simp [digit_flag, hc, this]

theorem cstr_lit_logdir : cstr "logdir".toList = "logdir".toList := by decide

theorem strcmp_eq_iff (a b : List Char) : strcmp_eq a b = true ↔ cstr a = cstr b := by
  simp [strcmp_eq]

theorem process_entry_logdir (M : Nat) (g : Globals) (e : cmdarguments_t)
    (h : strcmp_eq e.name "logdir".toList = true) :
    process_entry M g e = { g with logdir := strncpy g.logdir e.arguments M } := by
  rw [process_entry, if_pos h]

theorem process_entry_debug (M : Nat) (g : Globals) (e : cmdarguments_t)
    (h : strcmp_eq e.name "debug".toList = true) :
    process_entry M g e = { g with debug_mode := digit_flag (e.arguments.headD NUL) } := by
  have h1 : strcmp_eq e.name "logdir".toList = false := by
    rw [strcmp_eq_iff] at h
    simp only [strcmp_eq, h]
    decide
  rw [process_entry, if_neg (by rw [h1]; decide), if_pos h]

theorem process_entry_log (M : Nat) (g : Globals) (e : cmdarguments_t)
    (h : strcmp_eq e.name "log".toList = true) :
    process_entry M g e = { g with log_mode := digit_flag (e.arguments.headD NUL) } := by
  rw [strcmp_eq_iff] at h
  have h1 : strcmp_eq e.name "logdir".toList = false := by
    simp only [strcmp_eq, h]; decide
  have h2 : strcmp_eq e.name "debug".toList = false := by
    simp only [strcmp_eq, h]; decide
  have h3 : strcmp_eq e.name "log".toList = true := by
    simp only [strcmp_eq, h]; decide
  rw [process_entry, if_neg (by rw [h1]; decide), if_neg (by rw [h2]; decide), if_pos h3]

theorem process_entry_exec (M : Nat) (g : Globals) (e : cmdarguments_t)
    (h : strcmp_eq e.name "exec".toList = true) :
    process_entry M g e = { g with exec := strncpy g.exec e.arguments M } := by
  rw [strcmp_eq_iff] at h
  have h1 : strcmp_eq e.name "logdir".toList = false := by
    simp only [strcmp_eq, h]; decide
  have h2 : strcmp_eq e.name "debug".toList = false := by
    simp only [strcmp_eq, h]; decide
  have h3 : strcmp_eq e.name "log".toList = false := by
    simp only [strcmp_eq, h]; decide
  have h4 : strcmp_eq e.name "exec".toList = true := by
    simp only [strcmp_eq, h]; decide
  rw [process_entry, if_neg (by rw [h1]; decide), if_neg (by rw [h2]; decide),
    if_neg (by rw [h3]; decide), if_pos h4]

theorem process_entry_other (M : Nat) (g : Globals) (e : cmdarguments_t)
    (h1 : strcmp_eq e.name "logdir".toList = false)
    (h2 : strcmp_eq e.name "debug".toList = false)
    (h3 : strcmp_eq e.name "log".toList = false)
    (h4 : strcmp_eq e.name "exec".toList = false) :
    process_entry M g e = g := by
  rw [process_entry, if_neg (by rw [h1]; decide), if_neg (by rw [h2]; decide),
    if_neg (by rw [h3]; decide), if_neg (by rw [h4]; decide)]

theorem process_entry_keeps_logdir (M : Nat) (g : Globals) (e : cmdarguments_t)
    (h : strcmp_eq e.name "logdir".toList = false) :
    (process_entry M g e).logdir = g.logdir := by
  unfold process_entry
  rw [h]
  split_ifs <;> first | rfl | contradiction

theorem process_entry_keeps_debug (M : Nat) (g : Globals) (e : cmdarguments_t)
    (h : strcmp_eq e.name "debug".toList = false) :
    (process_entry M g e).debug_mode = g.debug_mode := by
  unfold process_entry
  rw [h]
  split_ifs <;> first | rfl | contradiction

theorem process_entry_keeps_log (M : Nat) (g : Globals) (e : cmdarguments_t)
    (h : strcmp_eq e.name "log".toList = false) :
    (process_entry M g e).log_mode = g.log_mode := by
  unfold process_entry
  rw [h]
  split_ifs <;> first | rfl | contradiction

theorem process_entry_keeps_exec (M : Nat) (g : Globals) (e : cmdarguments_t)
    (h : strcmp_eq e.name "exec".toList = false) :
    (process_entry M g e).exec = g.exec := by
  unfold process_entry
  rw [h]
  split_ifs <;> first | rfl | contradiction

theorem process_entry_sizes (M : Nat) (g : Globals) (e : cmdarguments_t)
    (h : g.logdir.length = M ∧ g.exec.length = M) :
    (process_entry M g e).logdir.length = M ∧ (process_entry M g e).exec.length = M := by
  unfold process_entry
  split_ifs
  · exact ⟨strncpy_length _ _ _ h.1, h.2⟩
  · exact h
  · exact h
  · exact ⟨h.1, strncpy_length _ _ _ h.2⟩
  · exact h

theorem foldl_process_entry_sizes (M : Nat) (es : List cmdarguments_t) :
    ∀ g : Globals, g.logdir.length = M ∧ g.exec.length = M →
      (es.foldl (process_entry M) g).logdir.length = M ∧
      (es.foldl (process_entry M) g).exec.length = M := by
  induction es with
  | nil => intro g h; simpa using h
  | cons e es ih =>
    intro g h
    simpa using ih _ (process_entry_sizes M g e h)

theorem foldl_keeps_logdir (M : Nat) (es : List cmdarguments_t) :
    ∀ g : Globals, (∀ e ∈ es, strcmp_eq e.name "logdir".toList = false) →
      (es.foldl (process_entry M) g).logdir = g.logdir := by
  induction es with
  | nil => intro g _; rfl
  | cons e es ih =>
    intro g h
    rw [List.foldl_cons, ih _ (fun x hx => h x (List.mem_cons_of_mem _ hx)),
      process_entry_keeps_logdir M g e (h e (List.mem_cons_self _ _))]

theorem foldl_keeps_debug (M : Nat) (es : List cmdarguments_t) :
    ∀ g : Globals, (∀ e ∈ es, strcmp_eq e.name "debug".toList = false) →
      (es.foldl (process_entry M) g).debug_mode = g.debug_mode := by
  induction es with
  | nil => intro g _; rfl
  | cons e es ih =>
    intro g h
    rw [List.foldl_cons, ih _ (fun x hx => h x (List.mem_cons_of_mem _ hx)),
      process_entry_keeps_debug M g e (h e (List.mem_cons_self _ _))]

theorem foldl_keeps_log (M : Nat) (es : List cmdarguments_t) :
    ∀ g : Globals, (∀ e ∈ es, strcmp_eq e.name "log".toList = false) →
      (es.foldl (process_entry M) g).log_mode = g.log_mode := by
  induction es with
  | nil => intro g _; rfl
  | cons e es ih =>
    intro g h
    rw [List.foldl_cons, ih _ (fun x hx => h x (List.mem_cons_of_mem _ hx)),
      process_entry_keeps_log M g e (h e (List.mem_cons_self _ _))]

theorem foldl_keeps_exec (M : Nat) (es : List cmdarguments_t) :
    ∀ g : Globals, (∀ e ∈ es, strcmp_eq e.name "exec".toList = false) →
      (es.foldl (process_entry M) g).exec = g.exec := by
  induction es with
  | nil => intro g _; rfl
  | cons e es ih =>
    intro g h
    rw [List.foldl_cons, ih _ (fun x hx => h x (List.mem_cons_of_mem _ hx)),
      process_entry_keeps_exec M g e (h e (List.mem_cons_self _ _))]

theorem logdir_last_wins (M : Nat) (g : Globals) (pre post : List cmdarguments_t)
    (e : cmdarguments_t) (hsz : g.logdir.length = M ∧ g.exec.length = M)
    (hsplit : visited g = pre ++ e :: post)
    (he : strcmp_eq e.name "logdir".toList = true)
    (hpost : ∀ x ∈ post, strcmp_eq x.name "logdir".toList = false)
    (hshort : (cstr e.arguments).length < M) :
    (process_global_arguments M g).logdir
      = cstr e.arguments ++ List.replicate (M - (cstr e.arguments).length) NUL := by
  unfold visited at hsplit
  unfold process_global_arguments
  rw [hsplit, List.foldl_append, List.foldl_cons, foldl_keeps_logdir M post _ hpost,
    process_entry_logdir M _ e he]
  exact strncpy_of_short _ _ _ (foldl_process_entry_sizes M pre g hsz).1 hshort

theorem exec_last_wins (M : Nat) (g : Globals) (pre post : List cmdarguments_t)
    (e : cmdarguments_t) (hsz : g.logdir.length = M ∧ g.exec.length = M)
    (hsplit : visited g = pre ++ e :: post)
    (he : strcmp_eq e.name "exec".toList = true)
    (hpost : ∀ x ∈ post, strcmp_eq x.name "exec".toList = false)
    (hshort : (cstr e.arguments).length < M) :
    (process_global_arguments M g).exec
      = cstr e.arguments ++ List.replicate (M - (cstr e.arguments).length) NUL := by
  unfold visited at hsplit
  unfold process_global_arguments
  rw [hsplit, List.foldl_append, List.foldl_cons, foldl_keeps_exec M post _ hpost,
    process_entry_exec M _ e he]
  exact strncpy_of_short _ _ _ (foldl_process_entry_sizes M pre g hsz).2 hshort

theorem debug_last_wins (M : Nat) (g : Globals) (pre post : List cmdarguments_t)
    (e : cmdarguments_t) (hsplit : visited g = pre ++ e :: post)
    (he : strcmp_eq e.name "debug".toList = true)
    (hpost : ∀ x ∈ post, strcmp_eq x.name "debug".toList = false) :
    (process_global_arguments M g).debug_mode = !decide (e.arguments.headD NUL = '0') := by
  unfold visited at hsplit
  unfold process_global_arguments
  rw [hsplit, List.foldl_append, List.foldl_cons, foldl_keeps_debug M post _ hpost,
    process_entry_debug M _ e he]
  exact digit_flag_eq _

theorem log_last_wins (M : Nat) (g : Globals) (pre post : List cmdarguments_t)
    (e : cmdarguments_t) (hsplit : visited g = pre ++ e :: post)
    (he : strcmp_eq e.name "log".toList = true)
    (hpost : ∀ x ∈ post, strcmp_eq x.name "log".toList = false) :
    (process_global_arguments M g).log_mode = !decide (e.arguments.headD NUL = '0') := by
  unfold visited at hsplit
  unfold process_global_arguments
  rw [hsplit, List.foldl_append, List.foldl_cons, foldl_keeps_log M post _ hpost,
    process_entry_log M _ e he]
  exact digit_flag_eq _

theorem foldl_other (M : Nat) (es : List cmdarguments_t) :
    ∀ g : Globals,
      (∀ e ∈ es,
        strcmp_eq e.name "logdir".toList = false ∧ strcmp_eq e.name "debug".toList = false ∧
        strcmp_eq e.name "log".toList = false ∧ strcmp_eq e.name "exec".toList = false) →
      es.foldl (process_entry M) g = g := by
  induction es with
  | nil => intro g _; rfl
  | cons e es ih =>
    intro g h
    obtain ⟨h1, h2, h3, h4⟩ := h e (List.mem_cons_self _ _)
    rw [List.foldl_cons, process_entry_other M g e h1 h2 h3 h4]
    exact ih g (fun x hx => h x (List.mem_cons_of_mem _ hx))

theorem split_at_getElem? {α : Type} (l : List α) (i : Nat) (e : α) (h : l[i]? = some e) :
    l = l.take i ++ e :: l.drop (i + 1) := by
  have hi : i < l.length := lt_length_of_getElem? l i e h
  have he : l[i] = e := by
    rw [List.getElem?_eq_getElem hi] at h
    exact Option.some.inj h
  rw [← he, ← List.drop_eq_getElem_cons hi, List.take_append_drop]

theorem strcmp_eq_false_of_cstr (buf k lit : List Char) (hk : cstr buf = k)
    (hl : cstr lit = lit) (hne : k ≠ lit) : strcmp_eq buf lit = false := by
  simp only [strcmp_eq, hk, hl]
  exact beq_false_of_ne hne

theorem strcmp_eq_true_of_cstr (buf lit : List Char) (hk : cstr buf = lit)
    (hl : cstr lit = lit) : strcmp_eq buf lit = true := by
  simp [strcmp_eq, hk, hl]

/-- After a well-formed string with a pair `(key, v)` at some position and no
later pair of that key, the table visited by `process_global_arguments` splits
at the entry of that pair, and no later entry is named `key`. -/
theorem visited_split_of_pairs (M : Nat) (pre post : List (List Char × List Char))
    (key v : List Char) (arr1 : List cmdarguments_t) (hkey : cstr key = key)
    (hent : ∀ (i : Nat) (q : List Char × List Char),
      (pre ++ (key, v) :: post)[i]? = some q →
      ∃ e1 : cmdarguments_t, arr1[i]? = some e1 ∧ cstr e1.name = q.1 ∧
        cstr e1.arguments = q.2)
    (hpost : ∀ p ∈ post, p.1 ≠ key) :
    ∃ (P Q : List cmdarguments_t) (e : cmdarguments_t),
      visited { init_globals M with
          arguments := arr1
          argument_length := ((pre ++ (key, v) :: post).length : Int) }
        = P ++ e :: Q ∧
      strcmp_eq e.name key = true ∧ cstr e.arguments = v ∧
      ∀ x ∈ Q, strcmp_eq x.name key = false := by
  have hn : (pre ++ (key, v) :: post).length = pre.length + 1 + post.length := by
    simp; omega
  have hv : visited { init_globals M with
        arguments := arr1
        argument_length := ((pre ++ (key, v) :: post).length : Int) }
      = arr1.take (pre.length + 1 + post.length) := by
    simp only [visited, Int.toNat_ofNat, hn]
  have hp0 : (pre ++ (key, v) :: post)[pre.length]? = some (key, v) := by
    rw [List.getElem?_append_right (Nat.le_refl _)]; simp
  obtain ⟨e, he, hname, hargs⟩ := hent pre.length _ hp0
  have hte : (arr1.take (pre.length + 1 + post.length))[pre.length]? = some e := by
    rw [List.getElem?_take_of_lt (by omega)]; exact he
  refine ⟨(arr1.take (pre.length + 1 + post.length)).take pre.length,
    (arr1.take (pre.length + 1 + post.length)).drop (pre.length + 1), e, ?_,
    strcmp_eq_true_of_cstr _ _ hname hkey, hargs, ?_⟩
  · rw [hv]
    exact split_at_getElem? _ _ _ hte
  · intro x hx
    obtain ⟨m, hm⟩ := List.mem_iff_getElem?.mp hx
    rw [List.getElem?_drop] at hm
    have hlt : pre.length + 1 + m < pre.length + 1 + post.length := by
      rcases Nat.lt_or_ge (pre.length + 1 + m) (pre.length + 1 + post.length) with h | h
      · exact h
      · rw [List.getElem?_take_eq_none h] at hm; cases hm
    rw [List.getElem?_take_of_lt hlt] at hm
    have hm1 : m < post.length := by omega
    have hq : (pre ++ (key, v) :: post)[pre.length + 1 + m]? = some post[m] := by
      rw [List.getElem?_append_right (by omega)]
      have : pre.length + 1 + m - pre.length = m + 1 := by omega
      rw [this, List.getElem?_cons_succ, List.getElem?_eq_getElem hm1]
    obtain ⟨e2, he2, hname2, _⟩ := hent _ _ hq
    rw [hm] at he2
    have hx2 : x = e2 := Option.some.inj he2
    subst hx2
    exact strcmp_eq_false_of_cstr _ _ _ hname2 hkey
      (hpost _ (List.getElem_mem hm1))

theorem cstr_lit_debug : cstr "debug".toList = "debug".toList := by decide

theorem cstr_lit_log : cstr "log".toList = "log".toList := by decide

theorem cstr_lit_exec : cstr "exec".toList = "exec".toList := by decide

theorem headD_cstr (buf : List Char) : buf.headD NUL = (cstr buf).headD NUL := by
  cases buf with
  | nil => rfl
  | cons c rest =>
    by_cases hc : c = NUL
    · simp [cstr, hc]
    · simp [cstr, hc]

theorem doCommandLineArgProcessing_eq (M : Nat) (args : List Char) (g0 g : Globals)
    (h : doCommandLineArgProcessing M args g0 = some g) :
    ∃ (arr : List cmdarguments_t) (n : Int),
      g = process_global_arguments M { g0 with arguments := arr, argument_length := n } := by
  unfold doCommandLineArgProcessing at h
  cases hp : parse_from args (parse_start g0.arguments) with
  | none => rw [hp] at h; cases h
  | some r =>
    rw [hp] at h
    exact ⟨r.1, r.2, (Option.some.inj h).symm⟩

theorem visited_process_global_arguments (M : Nat) (g : Globals) :
    visited (process_global_arguments M g) = visited g := by
  obtain ⟨f1, f2, _⟩ := process_global_arguments_frame M g
  unfold visited
  rw [f1, f2]

theorem result_last_wins (M : Nat) (args : List Char) (g0 g : Globals)
    (hl : g0.logdir.length = M) (hx : g0.exec.length = M)
    (h : doCommandLineArgProcessing M args g0 = some g)
    (P Q : List cmdarguments_t) (e : cmdarguments_t) (hsplit : visited g = P ++ e :: Q) :
    (strcmp_eq e.name "logdir".toList = true →
      (∀ x ∈ Q, strcmp_eq x.name "logdir".toList = false) →
      (cstr e.arguments).length < M →
      g.logdir = cstr e.arguments ++ List.replicate (M - (cstr e.arguments).length) NUL) ∧
    (strcmp_eq e.name "exec".toList = true →
      (∀ x ∈ Q, strcmp_eq x.name "exec".toList = false) →
      (cstr e.arguments).length < M →
      g.exec = cstr e.arguments ++ List.replicate (M - (cstr e.arguments).length) NUL) ∧
    (strcmp_eq e.name "debug".toList = true →
      (∀ x ∈ Q, strcmp_eq x.name "debug".toList = false) →
      g.debug_mode = !decide (e.arguments.headD NUL = '0')) ∧
    (strcmp_eq e.name "log".toList = true →
      (∀ x ∈ Q, strcmp_eq x.name "log".toList = false) →
      g.log_mode = !decide (e.arguments.headD NUL = '0')) := by
  obtain ⟨arr, n, hg⟩ := doCommandLineArgProcessing_eq M args g0 g h
  rw [hg, visited_process_global_arguments] at hsplit
  rw [hg]
  refine ⟨?_, ?_, ?_, ?_⟩
  · intro he hQ hs
    exact logdir_last_wins M _ P Q e ⟨hl, hx⟩ hsplit he hQ hs
  · intro he hQ hs
    exact exec_last_wins M _ P Q e ⟨hl, hx⟩ hsplit he hQ hs
  · intro he hQ
    exact debug_last_wins M _ P Q e hsplit he hQ
  · intro he hQ
    exact log_last_wins M _ P Q e hsplit he hQ

theorem init_globals_sizes (M : Nat) :
    (init_globals M).logdir.length = M ∧ (init_globals M).exec.length = M := by
  simp [init_globals]

/-- After a string of the form of C1 with a pair of the key `key` that no later
pair repeats, the entry of that pair is the last visited entry named `key`. -/
theorem pairs_last_entry (M : Nat) (pairs pre post : List (List Char × List Char))
    (key v : List Char) (arr1 : List cmdarguments_t) (hkey : cstr key = key)
    (hent : ∀ (i : Nat) (q : List Char × List Char), pairs[i]? = some q →
      ∃ e1 : cmdarguments_t, arr1[i]? = some e1 ∧ cstr e1.name = q.1 ∧
        cstr e1.arguments = q.2)
    (hp : pairs = pre ++ (key, v) :: post) (hpost : ∀ p ∈ post, p.1 ≠ key) :
    ∃ (P Q : List cmdarguments_t) (e : cmdarguments_t),
      visited { init_globals M with
          arguments := arr1
          argument_length := (pairs.length : Int) }
        = P ++ e :: Q ∧
      strcmp_eq e.name key = true ∧ cstr e.arguments = v ∧
      ∀ x ∈ Q, strcmp_eq x.name key = false := by
  subst hp
  exact visited_split_of_pairs M pre post key v arr1 hkey hent hpost

/-! ## Lemmas on the options loop and on the callbacks -/

theorem client_options_flag (DEBUG : Bool) (as : List (List Char)) :
    ∀ g g1 : Globals, client_options DEBUG g as = some g1 →
      (g1.only_from_app = true ↔
        g.only_from_app = true ∨
          ∃ a ∈ as, strcmp_eq a "-only_from_app".toList = true) := by
  induction as with
  | nil =>
    intro g g1 h
    simp only [client_options, Option.some.injEq] at h
    subst h
    simp
  | cons a rest ih =>
    intro g g1 h
    by_cases ha : strcmp_eq a "-only_from_app".toList = true
    · rw [client_options, if_pos ha] at h
      have h1 := (ih _ g1 h).mpr (Or.inl rfl)
      constructor
      · intro _
        exact Or.inr ⟨a, List.mem_cons_self _ _, ha⟩
      · intro _
        exact h1
    · rw [client_options, if_neg ha] at h
      by_cases hd : DEBUG = true
      · rw [if_pos hd] at h
        cases h
      · rw [if_neg hd] at h
        rw [ih g g1 h]
        constructor
        · rintro (hg | ⟨b, hb, hm⟩)
          · exact Or.inl hg
          · exact Or.inr ⟨b, List.mem_cons_of_mem _ hb, hm⟩
        · rintro (hg | ⟨b, hb, hm⟩)
          · exact Or.inl hg
          · rcases List.mem_cons.mp hb with hba | hb
            · rw [hba] at hm
              exact absurd hm ha
            · exact Or.inr ⟨b, hb, hm⟩

theorem client_options_release (as : List (List Char)) :
    ∀ g : Globals, ∃ g1 : Globals, client_options false g as = some g1 := by
  induction as with
  | nil => intro g; exact ⟨g, rfl⟩
  | cons a rest ih =>
    intro g
    by_cases ha : strcmp_eq a "-only_from_app".toList = true
    · rw [client_options, if_pos ha]
      exact ih _
    · rw [client_options, if_neg ha, if_neg (by decide)]
      exact ih _

theorem dr_client_main_flag (DEBUG : Bool) (g : Globals) (argv : List (List Char))
    (exe : Option module_data_t) (g1 : Globals)
    (h : dr_client_main DEBUG g argv exe = some g1) :
    (g1.only_from_app = true ↔
      g.only_from_app = true ∨
        ∃ a ∈ argv.drop 1, strcmp_eq a "-only_from_app".toList = true) := by
  unfold dr_client_main at h
  cases hc : client_options DEBUG g (argv.drop 1) with
  | none => rw [hc] at h; cases h
  | some g2 =>
    rw [hc] at h
    dsimp only at h
    have hflag := client_options_flag DEBUG (argv.drop 1) g g2 hc
    by_cases h2 : g2.only_from_app = true
    · rw [if_pos h2] at h
      cases exe with
      | none => cases h
      | some m =>
        have h3 := Option.some.inj h
        rw [← h3]
        exact hflag
    · rw [if_neg h2] at h
      have h3 := Option.some.inj h
      rw [← h3]
      exact hflag

theorem dr_client_main_release (g : Globals) (argv : List (List Char))
    (m : module_data_t) : ∃ g1 : Globals, dr_client_main false g argv (some m) = some g1 := by
  obtain ⟨g2, hg2⟩ := client_options_release (argv.drop 1) g
  unfold dr_client_main
  rw [hg2]
  dsimp only
  by_cases h2 : g2.only_from_app = true
  · rw [if_pos h2]
    exact ⟨_, rfl⟩
  · rw [if_neg h2]
    exact ⟨_, rfl⟩

theorem doCommandLineArgProcessing_only_from_app (M : Nat) (args : List Char)
    (g g1 : Globals) (h : doCommandLineArgProcessing M args g = some g1) :
    g1.only_from_app = g.only_from_app := by
  unfold doCommandLineArgProcessing at h
  cases hp : parse_from args (parse_start g.arguments) with
  | none => rw [hp] at h; cases h
  | some r =>
    rw [hp] at h
    simp only [Option.some.injEq] at h
    rw [← h]
    exact (process_global_arguments_frame M _).2.2.1

theorem count_loop_eq (bb : instrlist_t) :
    ∀ n : Nat, n < 2 ^ 32 → count_loop bb n = (n + app_count bb) % 2 ^ 32 := by
  induction bb with
  | nil =>
    intro n hn
    have h0 : app_count [] = 0 := rfl
    rw [count_loop, h0, Nat.add_zero, Nat.mod_eq_of_lt hn]
  | cons i rest ih =>
    intro n hn
    by_cases hi : instr_is_app i = true
    · have hc : app_count (i :: rest) = app_count rest + 1 := by
        simp [app_count, List.filter_cons, hi]
      rw [count_loop, if_pos hi, ih _ (Nat.mod_lt _ (by norm_num)), hc]
      omega
    · have hc : app_count (i :: rest) = app_count rest := by
        simp [app_count, List.filter_cons, hi]
      rw [count_loop, if_neg hi, ih n hn, hc]

theorem first_app_split (bb : instrlist_t) (h : app_count bb ≠ 0) :
    ∃ (pre : instrlist_t) (pc : Nat) (rest : instrlist_t),
      bb = pre ++ instr_t.app pc :: rest ∧ ∀ x ∈ pre, instr_is_app x = false := by
  induction bb with
  | nil => simp [app_count] at h
  | cons i rest ih =>
    cases i with
    | app pc => exact ⟨[], pc, rest, rfl, by simp⟩
    | non_app pc =>
      have h1 : app_count rest ≠ 0 := by
        simpa [app_count, List.filter_cons, instr_is_app] using h
      obtain ⟨pre, pc1, rest1, hb, hp⟩ := ih h1
      refine ⟨instr_t.non_app pc :: pre, pc1, rest1, by rw [hb]; rfl, ?_⟩
      intro x hx
      rcases List.mem_cons.mp hx with hx | hx
      · rw [hx]; rfl
      · exact hp x hx
    | clean_call_inscount imm =>
      have h1 : app_count rest ≠ 0 := by
        simpa [app_count, List.filter_cons, instr_is_app] using h
      obtain ⟨pre, pc1, rest1, hb, hp⟩ := ih h1
      refine ⟨instr_t.clean_call_inscount imm :: pre, pc1, rest1, by rw [hb]; rfl, ?_⟩
      intro x hx
      rcases List.mem_cons.mp hx with hx | hx
      · rw [hx]; rfl
      · exact hp x hx

theorem dr_insert_clean_call_split (pre rest : instrlist_t) (pc : Nat) (arg : Int)
    (hp : ∀ x ∈ pre, instr_is_app x = false) :
    dr_insert_clean_call (pre ++ instr_t.app pc :: rest) arg
      = pre ++ instr_t.clean_call_inscount arg :: instr_t.app pc :: rest := by
  induction pre with
  | nil => simp [dr_insert_clean_call, instr_is_app]
  | cons i pre ih =>
    have hi : instr_is_app i = false := hp i (List.mem_cons_self _ _)
    have := ih (fun x hx => hp x (List.mem_cons_of_mem _ hx))
    simp [dr_insert_clean_call, hi, this]

theorem event_app_instruction_not_first (bb : instrlist_t) (user_data : Nat) :
    event_app_instruction bb false user_data = (dr_emit_flags_t.DR_EMIT_DEFAULT, bb) := by
  simp [event_app_instruction]

theorem event_app_instruction_null (bb : instrlist_t) (first : Bool) :
    event_app_instruction bb first 0 = (dr_emit_flags_t.DR_EMIT_DEFAULT, bb) := by
  cases first <;> simp [event_app_instruction]

theorem event_app_instruction_flag (bb : instrlist_t) (first : Bool) (user_data : Nat) :
    (event_app_instruction bb first user_data).1 = dr_emit_flags_t.DR_EMIT_DEFAULT := by
  unfold event_app_instruction
  split_ifs <;> rfl

theorem event_bb_analysis_flag (g : Globals) (lookup : Nat → Option module_data_t)
    (tag : Nat) (bb : instrlist_t) :
    (event_bb_analysis g lookup tag bb).1 = dr_emit_flags_t.DR_EMIT_DEFAULT := by
  simp only [event_bb_analysis]
  by_cases h1 : g.only_from_app = true
  · rw [if_pos h1]
    cases lookup tag with
    | none => rfl
    | some mod =>
      dsimp only
      split_ifs <;> rfl
  · rw [if_neg h1]

theorem insertion_stage_not_first (user_data : Nat) (todo : instrlist_t) :
    ∀ bb : instrlist_t, insertion_stage user_data todo false bb = bb := by
  induction todo with
  | nil => intro bb; rfl
  | cons i rest ih =>
    intro bb
    rw [insertion_stage, event_app_instruction_not_first, ih]

theorem insertion_stage_null (todo : instrlist_t) :
    ∀ (first : Bool) (bb : instrlist_t), insertion_stage 0 todo first bb = bb := by
  induction todo with
  | nil => intro first bb; rfl
  | cons i rest ih =>
    intro first bb
    rw [insertion_stage, event_app_instruction_null, ih]

theorem insertion_stage_first (user_data : Nat) (i : instr_t) (rest bb : instrlist_t) :
    insertion_stage user_data (i :: rest) true bb
      = (event_app_instruction bb true user_data).2 := by
  rw [insertion_stage, insertion_stage_not_first]

theorem event_bb_analysis_value (g : Globals) (lookup : Nat → Option module_data_t)
    (tag : Nat) (bb : instrlist_t) :
    (event_bb_analysis g lookup tag bb).2 = 0 ∨
    (event_bb_analysis g lookup tag bb).2 = app_count bb % 2 ^ 32 := by
  have hc : count_loop bb 0 = app_count bb % 2 ^ 32 := by
    rw [count_loop_eq bb 0 (by norm_num), Nat.zero_add]
  simp only [event_bb_analysis]
  by_cases h1 : g.only_from_app = true
  · rw [if_pos h1]
    cases lookup tag with
    | none => exact Or.inr hc
    | some mod =>
      dsimp only
      split_ifs
      · exact Or.inl rfl
      · exact Or.inr hc
  · rw [if_neg h1]
    exact Or.inr hc

theorem event_bb_analysis_counts (g : Globals) (lookup : Nat → Option module_data_t)
    (tag : Nat) (bb : instrlist_t) (h : g.only_from_app = false) :
    event_bb_analysis g lookup tag bb
      = (dr_emit_flags_t.DR_EMIT_DEFAULT, app_count bb % 2 ^ 32) := by
  have hc : count_loop bb 0 = app_count bb % 2 ^ 32 := by
    rw [count_loop_eq bb 0 (by norm_num), Nat.zero_add]
  simp [event_bb_analysis, h, hc]

theorem exec_unit_no_call (bb : instrlist_t) :
    ∀ g : Globals, (∀ x ∈ bb, is_clean_call x = false) → exec_unit g bb = g := by
  induction bb with
  | nil => intro g _; rfl
  | cons i rest ih =>
    intro g h
    have hi := h i (List.mem_cons_self _ _)
    have hrest := ih g (fun x hx => h x (List.mem_cons_of_mem _ hx))
    cases i with
    | app pc => simpa [exec_unit, exec_instr] using hrest
    | non_app pc => simpa [exec_unit, exec_instr] using hrest
    | clean_call_inscount imm => simp [is_clean_call] at hi

theorem uint_of_OPND_CREATE_INT32 (n : Nat) :
    ((OPND_CREATE_INT32 n) % 2 ^ 32).toNat = n % 2 ^ 32 := by
  unfold OPND_CREATE_INT32
  have h : n % 2 ^ 32 < 2 ^ 32 := Nat.mod_lt _ (by norm_num)
  split_ifs <;> omega

theorem dispatch_of_null (g : Globals) (lookup : Nat → Option module_data_t) (tag : Nat)
    (bb : instrlist_t) (h : (event_bb_analysis g lookup tag bb).2 = 0) :
    dispatch g lookup tag bb = bb := by
  rw [dispatch, h, insertion_stage_null]

theorem dispatch_of_context (g : Globals) (lookup : Nat → Option module_data_t) (tag : Nat)
    (bb : instrlist_t) (h : (event_bb_analysis g lookup tag bb).2 ≠ 0) :
    (event_bb_analysis g lookup tag bb).2 = app_count bb % 2 ^ 32 ∧
    ∃ (pre : instrlist_t) (pc : Nat) (rest : instrlist_t),
      bb = pre ++ instr_t.app pc :: rest ∧ (∀ x ∈ pre, instr_is_app x = false) ∧
      (event_app_instruction bb true (event_bb_analysis g lookup tag bb).2).2
        = pre ++ instr_t.clean_call_inscount (OPND_CREATE_INT32 (app_count bb % 2 ^ 32))
            :: instr_t.app pc :: rest ∧
      dispatch g lookup tag bb
        = pre ++ instr_t.clean_call_inscount (OPND_CREATE_INT32 (app_count bb % 2 ^ 32))
            :: instr_t.app pc :: rest := by
  have hv : (event_bb_analysis g lookup tag bb).2 = app_count bb % 2 ^ 32 := by
    rcases event_bb_analysis_value g lookup tag bb with h0 | h1
    · exact absurd h0 h
    · exact h1
  have hne : app_count bb ≠ 0 := by
    intro h0
    rw [hv, h0] at h
    exact h rfl
  obtain ⟨pre, pc, rest, hb, hp⟩ := first_app_split bb hne
  have hcall : ∀ arg : Int, dr_insert_clean_call bb arg
      = pre ++ instr_t.clean_call_inscount arg :: instr_t.app pc :: rest := by
    intro arg
    rw [hb]
    exact dr_insert_clean_call_split pre rest pc arg hp
  have hins : (event_app_instruction bb true (event_bb_analysis g lookup tag bb).2).2
      = pre ++ instr_t.clean_call_inscount (OPND_CREATE_INT32 (app_count bb % 2 ^ 32))
          :: instr_t.app pc :: rest := by
    have hmm : app_count bb % 2 ^ 32 % 2 ^ 32 = app_count bb % 2 ^ 32 := Nat.mod_mod _ _
    rw [hv] at h ⊢
    simp only [event_app_instruction, h, if_false, hmm, Bool.true_eq_false]
    exact hcall _
  refine ⟨hv, pre, pc, rest, hb, hp, hins, ?_⟩
  cases hbb : bb with
  | nil => rw [hbb] at hne; exact absurd rfl hne
  | cons i t =>
    rw [← hbb, dispatch]
    conv_lhs => arg 2; rw [hbb]
    rw [insertion_stage_first, hins]

theorem exec_unit_dispatch (g : Globals) (lookup : Nat → Option module_data_t) (tag : Nat)
    (bb : instrlist_t) (hofa : g.only_from_app = false)
    (hclean : ∀ x ∈ bb, is_clean_call x = false) (hlt : app_count bb < 2 ^ 31)
    (hgc : g.global_count < 2 ^ 64) :
    exec_unit g (dispatch g lookup tag bb)
      = { g with global_count := (g.global_count + app_count bb) % 2 ^ 64 } := by
  have hmod : app_count bb % 2 ^ 32 = app_count bb := Nat.mod_eq_of_lt (by omega)
  have hev := event_bb_analysis_counts g lookup tag bb hofa
  by_cases h0 : app_count bb = 0
  · have hnull : (event_bb_analysis g lookup tag bb).2 = 0 := by rw [hev, hmod, h0]
    rw [dispatch_of_null g lookup tag bb hnull, exec_unit_no_call bb g hclean, h0,
      Nat.add_zero, Nat.mod_eq_of_lt hgc]
  · have hctx : (event_bb_analysis g lookup tag bb).2 ≠ 0 := by rw [hev, hmod]; exact h0
    obtain ⟨_, pre, pc, rest, hb, _, _, hd⟩ := dispatch_of_context g lookup tag bb hctx
    have hpre : ∀ x ∈ pre, is_clean_call x = false := by
      intro x hx; apply hclean; rw [hb]; exact List.mem_append_left _ hx
    have hrest : ∀ x ∈ instr_t.app pc :: rest, is_clean_call x = false := by
      intro x hx; apply hclean; rw [hb]; exact List.mem_append_right _ hx
    have hpre1 := exec_unit_no_call pre g hpre
    have hrest1 := exec_unit_no_call (instr_t.app pc :: rest)
      (inscount g (app_count bb)) hrest
    unfold exec_unit at hpre1 hrest1 ⊢
    rw [hd, List.foldl_append, hpre1, List.foldl_cons]
    have hcall : exec_instr g
        (instr_t.clean_call_inscount (OPND_CREATE_INT32 (app_count bb % 2 ^ 32)))
        = inscount g (app_count bb) := by
      simp only [exec_instr, uint_of_OPND_CREATE_INT32, Nat.mod_mod, hmod]
    rw [hcall, hrest1]
    rfl

theorem run_units_global_count (lookup : Nat → Option module_data_t)
    (units : List (Nat × instrlist_t)) :
    ∀ g : Globals, g.only_from_app = false → g.global_count < 2 ^ 64 →
      (∀ u ∈ units, (∀ x ∈ u.2, is_clean_call x = false) ∧ app_count u.2 < 2 ^ 31) →
      (run_units lookup g units).global_count
        = (g.global_count + (units.map (fun u => app_count u.2)).sum) % 2 ^ 64 := by
  induction units with
  | nil =>
    intro g _ hgc _
    rw [run_units, List.map_nil, List.sum_nil, Nat.add_zero, Nat.mod_eq_of_lt hgc]
  | cons u rest ih =>
    intro g hofa hgc hu
    obtain ⟨hc, hl⟩ := hu u (List.mem_cons_self _ _)
    have hnext := ih { g with global_count := (g.global_count + app_count u.2) % 2 ^ 64 }
      hofa (Nat.mod_lt _ (by norm_num)) (fun x hx => hu x (List.mem_cons_of_mem _ hx))
    rw [run_units, exec_unit_dispatch g lookup u.1 u.2 hofa hc hl hgc, hnext]
    simp only [List.map_cons, List.sum_cons]
    omega

/-! ## The claims -/

/-- C1: for a configuration string `-k1 v1 -k2 v2 ... -kn vn` with
`1 ≤ n ≤ ARGUMENT_LENGTH`, single spaces between the tokens, keys that are
non-empty, free of `' '` and `'-'` and shorter than `MAX_STRING_LENGTH`, and
values that are non-empty, free of `'-'`, without a space at either end and
shorter than `10 * MAX_STRING_LENGTH`, `doCommandLineArgProcessing` run on
zero-initialised storage returns, sets `argument_length = n`, and entry `i` of
`arguments` holds the strings `ki` and `vi`, in input order. -/
theorem doCommandLineArgProcessing_records_pairs (M : Nat)
    (pairs : List (List Char × List Char))
    (h1 : 1 ≤ pairs.length) (h2 : pairs.length ≤ ARGUMENT_LENGTH)
    (hk : ∀ p ∈ pairs, key_ok M p.1) (hv : ∀ p ∈ pairs, value_ok M p.2) :
    ∃ g : Globals,
      doCommandLineArgProcessing M (render pairs) (init_globals M) = some g ∧
      g.argument_length = (pairs.length : Int) ∧
      ∀ (i : Nat) (p : List Char × List Char), pairs[i]? = some p →
        ∃ e : cmdarguments_t, g.arguments[i]? = some e ∧ cstr e.name = p.1 ∧
          cstr e.arguments = p.2 := by
  obtain ⟨arr1, hrun, _, hent⟩ := doCommandLineArgProcessing_render M pairs h1 h2
    (fun p hp => pair_fits_of_ok M p (hk p hp) (hv p hp))
  obtain ⟨f1, f2, _⟩ := process_global_arguments_frame M
    { init_globals M with arguments := arr1, argument_length := (pairs.length : Int) }
  refine ⟨_, hrun, f2, ?_⟩
  intro i p hp
  rw [f1]
  exact hent i p hp

/-- Witness of C1: the string `-logdir /tmp/out -debug 1 -memtrace bufsize=4096`
with `MAX_STRING_LENGTH = 16`. -/
theorem doCommandLineArgProcessing_records_pairs_witness :
    render example_pairs = "-logdir /tmp/out -debug 1 -memtrace bufsize=4096".toList ∧
    ∃ g : Globals,
      doCommandLineArgProcessing 16 (render example_pairs) (init_globals 16) = some g ∧
      g.argument_length = (example_pairs.length : Int) ∧
      ∀ (i : Nat) (p : List Char × List Char), example_pairs[i]? = some p →
        ∃ e : cmdarguments_t, g.arguments[i]? = some e ∧ cstr e.name = p.1 ∧
          cstr e.arguments = p.2 :=
  ⟨by decide,
   doCommandLineArgProcessing_records_pairs 16 example_pairs (by decide) (by decide)
     (by decide) (by decide)⟩

/-- C2, the code at the failing input `-logdir /tmp/my-dir`: the value text of
`logdir` runs to the next `'-'` and is `/tmp/my`, the parser records `/tmp/m`
(its last character is overwritten by the terminator) and copies that to the
global `logdir`; the rest of the path becomes an entry named `dir`. -/
theorem value_last_character_dropped :
    (doCommandLineArgProcessing 16 "-logdir /tmp/my-dir".toList (init_globals 16)).map
      (fun g => (g.argument_length,
        (visited g).map (fun e => (cstr e.name, cstr e.arguments)), cstr g.logdir))
    = some (2, [("logdir".toList, "/tmp/m".toList), ("dir".toList, [])],
        "/tmp/m".toList) := by
  decide

/-- C3: when exactly one visited entry is named `logdir` (resp. `exec`) and its
value is shorter than `MAX_STRING_LENGTH`, `process_global_arguments` leaves
the global `logdir` (resp. `exec`) array holding that value followed by `NUL`
up to its end; and an entry whose name is none of `logdir`, `debug`, `log`,
`exec` changes no global, whatever the state in which the loop reaches it (so a
table of such entries leaves the state as it was). -/
theorem process_global_arguments_logdir_exec (M : Nat) (g : Globals)
    (hsz : g.logdir.length = M ∧ g.exec.length = M) :
    (∀ (pre post : List cmdarguments_t) (e : cmdarguments_t),
      visited g = pre ++ e :: post →
      strcmp_eq e.name "logdir".toList = true →
      (∀ x ∈ pre, strcmp_eq x.name "logdir".toList = false) →
      (∀ x ∈ post, strcmp_eq x.name "logdir".toList = false) →
      (cstr e.arguments).length < M →
      (process_global_arguments M g).logdir
        = cstr e.arguments ++ List.replicate (M - (cstr e.arguments).length) NUL) ∧
    (∀ (pre post : List cmdarguments_t) (e : cmdarguments_t),
      visited g = pre ++ e :: post →
      strcmp_eq e.name "exec".toList = true →
      (∀ x ∈ pre, strcmp_eq x.name "exec".toList = false) →
      (∀ x ∈ post, strcmp_eq x.name "exec".toList = false) →
      (cstr e.arguments).length < M →
      (process_global_arguments M g).exec
        = cstr e.arguments ++ List.replicate (M - (cstr e.arguments).length) NUL) ∧
    (∀ (h : Globals) (e : cmdarguments_t),
      strcmp_eq e.name "logdir".toList = false → strcmp_eq e.name "debug".toList = false →
      strcmp_eq e.name "log".toList = false → strcmp_eq e.name "exec".toList = false →
      process_entry M h e = h) ∧
    ((∀ e ∈ visited g,
      strcmp_eq e.name "logdir".toList = false ∧ strcmp_eq e.name "debug".toList = false ∧
      strcmp_eq e.name "log".toList = false ∧ strcmp_eq e.name "exec".toList = false) →
      process_global_arguments M g = g) := by
  refine ⟨?_, ?_, ?_, ?_⟩
  · intro pre post e hsplit he _ hpost hshort
    exact logdir_last_wins M g pre post e hsz hsplit he hpost hshort
  · intro pre post e hsplit he _ hpost hshort
    exact exec_last_wins M g pre post e hsz hsplit he hpost hshort
  · intro h e h1 h2 h3 h4
    exact process_entry_other M h e h1 h2 h3 h4
  · intro hall
    exact foldl_other M (visited g) g hall

/-- Witness of C3: in the example table the only `logdir` entry holds `/tmp/out`
and the only `exec` entry holds `a.out`; the `memtrace` entry changes nothing. -/
theorem process_global_arguments_logdir_exec_witness :
    (process_global_arguments 16 example_globals).logdir
      = "/tmp/out".toList ++ List.replicate 8 NUL ∧
    (process_global_arguments 16 example_globals).exec
      = "a.out".toList ++ List.replicate 11 NUL ∧
    process_entry 16 example_globals (mk_entry 16 "memtrace".toList "bufsize=4096".toList)
      = example_globals :=
  ⟨(process_global_arguments_logdir_exec 16 example_globals (by decide)).1
      [] ((visited example_globals).drop 1) (mk_entry 16 "logdir".toList "/tmp/out".toList)
      (by decide) (by decide) (by decide) (by decide) (by decide),
   (process_global_arguments_logdir_exec 16 example_globals (by decide)).2.1
      ((visited example_globals).take 3) [] (mk_entry 16 "exec".toList "a.out".toList)
      (by decide) (by decide) (by decide) (by decide) (by decide),
   (process_global_arguments_logdir_exec 16 example_globals (by decide)).2.2.1
      example_globals (mk_entry 16 "memtrace".toList "bufsize=4096".toList)
      (by decide) (by decide) (by decide) (by decide)⟩

/-- C4: for an entry named `debug` (resp. `log`), the loop body of
`process_global_arguments` assigns to `debug_mode` (resp. `log_mode`) the
boolean of the leading character of the value, false exactly when that
character is `'0'` (so true for `'1'` and for the `NUL` of an empty value), and
leaves every other global as it was; after the whole loop the flag is the one
given by the last visited entry of that name. -/
theorem process_global_arguments_debug_log (M : Nat) (g : Globals)
    (pre post : List cmdarguments_t) (e : cmdarguments_t)
    (hsplit : visited g = pre ++ e :: post) :
    (strcmp_eq e.name "debug".toList = true →
      (∀ h : Globals, process_entry M h e
        = { h with debug_mode := !decide (e.arguments.headD NUL = '0') }) ∧
      ((∀ x ∈ post, strcmp_eq x.name "debug".toList = false) →
        (process_global_arguments M g).debug_mode
          = !decide (e.arguments.headD NUL = '0'))) ∧
    (strcmp_eq e.name "log".toList = true →
      (∀ h : Globals, process_entry M h e
        = { h with log_mode := !decide (e.arguments.headD NUL = '0') }) ∧
      ((∀ x ∈ post, strcmp_eq x.name "log".toList = false) →
        (process_global_arguments M g).log_mode
          = !decide (e.arguments.headD NUL = '0'))) := by
  refine ⟨?_, ?_⟩
  · intro he
    refine ⟨?_, fun hpost => debug_last_wins M g pre post e hsplit he hpost⟩
    intro h
    rw [process_entry_debug M h e he, digit_flag_eq]
  · intro he
    refine ⟨?_, fun hpost => log_last_wins M g pre post e hsplit he hpost⟩
    intro h
    rw [process_entry_log M h e he, digit_flag_eq]

/-- Witness of C4: the example table has the entry `debug 1`, which gives
`debug_mode = true`; an entry `debug 0` gives false and an entry `log` with an
empty value gives true. -/
theorem process_global_arguments_debug_log_witness :
    visited example_globals
      = [mk_entry 16 "logdir".toList "/tmp/out".toList]
        ++ mk_entry 16 "debug".toList "1".toList :: (visited example_globals).drop 2 ∧
    (process_global_arguments 16 example_globals).debug_mode = true ∧
    (process_entry 16 example_globals (mk_entry 16 "debug".toList "0".toList)).debug_mode
      = false ∧
    (process_entry 16 example_globals (mk_entry 16 "log".toList [])).log_mode = true :=
  ⟨by decide,
   ((process_global_arguments_debug_log 16 example_globals
      [mk_entry 16 "logdir".toList "/tmp/out".toList] ((visited example_globals).drop 2)
      (mk_entry 16 "debug".toList "1".toList) (by decide)).1 (by decide)).2 (by decide),
   by decide, by decide⟩

/-- C5, counterexample: the string `-logdir /a -logdir /b` is not rejected. The
call returns with both occurrences recorded and the global `logdir` assigned
from the second one, so it no longer holds what it held before the call. -/
theorem duplicate_key_not_rejected :
    (doCommandLineArgProcessing 16 "-logdir /a -logdir /b".toList (init_globals 16)).map
      (fun g => (g.argument_length,
        (visited g).map (fun e => (cstr e.name, cstr e.arguments)), cstr g.logdir))
      = some (2, [("logdir".toList, "/a".toList), ("logdir".toList, "/b".toList)],
          "/b".toList) ∧
    (doCommandLineArgProcessing 16 "-logdir /a -logdir /b".toList (init_globals 16)).map
      (fun g => g.logdir) ≠ some (init_globals 16).logdir := by
  decide

/-- C5 as amended: a string in which a key occurs more than once is accepted.
Whenever `doCommandLineArgProcessing` returns, each of the globals `logdir`,
`exec`, `debug_mode`, `log_mode` is the one given by the last visited entry of
its name, whatever entries of that name come before it. And on every string of
the form of C1, also with repeated keys, the call returns, records every pair
as its own entry in input order, and leaves in `logdir`, `exec`, `debug_mode`
and `log_mode` the value of the last pair of that key. -/
theorem duplicate_keys_last_wins (M : Nat) :
    (∀ (args : List Char) (g0 g : Globals),
      g0.logdir.length = M → g0.exec.length = M →
      doCommandLineArgProcessing M args g0 = some g →
      ∀ (P Q : List cmdarguments_t) (e : cmdarguments_t), visited g = P ++ e :: Q →
        (strcmp_eq e.name "logdir".toList = true →
          (∀ x ∈ Q, strcmp_eq x.name "logdir".toList = false) →
          (cstr e.arguments).length < M →
          g.logdir
            = cstr e.arguments ++ List.replicate (M - (cstr e.arguments).length) NUL) ∧
        (strcmp_eq e.name "exec".toList = true →
          (∀ x ∈ Q, strcmp_eq x.name "exec".toList = false) →
          (cstr e.arguments).length < M →
          g.exec
            = cstr e.arguments ++ List.replicate (M - (cstr e.arguments).length) NUL) ∧
        (strcmp_eq e.name "debug".toList = true →
          (∀ x ∈ Q, strcmp_eq x.name "debug".toList = false) →
          g.debug_mode = !decide (e.arguments.headD NUL = '0')) ∧
        (strcmp_eq e.name "log".toList = true →
          (∀ x ∈ Q, strcmp_eq x.name "log".toList = false) →
          g.log_mode = !decide (e.arguments.headD NUL = '0'))) ∧
    (∀ pairs : List (List Char × List Char),
      1 ≤ pairs.length → pairs.length ≤ ARGUMENT_LENGTH →
      (∀ p ∈ pairs, key_ok M p.1) → (∀ p ∈ pairs, value_ok M p.2) →
      ∃ g : Globals,
        doCommandLineArgProcessing M (render pairs) (init_globals M) = some g ∧
        g.argument_length = (pairs.length : Int) ∧
        (∀ (i : Nat) (p : List Char × List Char), pairs[i]? = some p →
          ∃ e : cmdarguments_t, g.arguments[i]? = some e ∧ cstr e.name = p.1 ∧
            cstr e.arguments = p.2) ∧
        (∀ (pre post : List (List Char × List Char)) (v : List Char),
          pairs = pre ++ ("logdir".toList, v) :: post →
          (∀ p ∈ post, p.1 ≠ "logdir".toList) → v.length < M →
          g.logdir = v ++ List.replicate (M - v.length) NUL) ∧
        (∀ (pre post : List (List Char × List Char)) (v : List Char),
          pairs = pre ++ ("exec".toList, v) :: post →
          (∀ p ∈ post, p.1 ≠ "exec".toList) → v.length < M →
          g.exec = v ++ List.replicate (M - v.length) NUL) ∧
        (∀ (pre post : List (List Char × List Char)) (v : List Char),
          pairs = pre ++ ("debug".toList, v) :: post →
          (∀ p ∈ post, p.1 ≠ "debug".toList) →
          g.debug_mode = !decide (v.headD NUL = '0')) ∧
        (∀ (pre post : List (List Char × List Char)) (v : List Char),
          pairs = pre ++ ("log".toList, v) :: post →
          (∀ p ∈ post, p.1 ≠ "log".toList) →
          g.log_mode = !decide (v.headD NUL = '0'))) := by
  refine ⟨fun args g0 g hl hx h P Q e hsplit =>
    result_last_wins M args g0 g hl hx h P Q e hsplit, ?_⟩
  intro pairs h1 h2 hk hv
  obtain ⟨arr1, hrun, _, hent⟩ := doCommandLineArgProcessing_render M pairs h1 h2
    (fun p hp => pair_fits_of_ok M p (hk p hp) (hv p hp))
  obtain ⟨f1, f2, _⟩ := process_global_arguments_frame M
    { init_globals M with arguments := arr1, argument_length := (pairs.length : Int) }
  have hsz := init_globals_sizes M
  refine ⟨_, hrun, f2, ?_, ?_, ?_, ?_, ?_⟩
  · intro i p hp
    rw [f1]
    exact hent i p hp
  · intro pre post v hp hpost hshort
    obtain ⟨P, Q, e, hsplit, hname, hargs, hQ⟩ := pairs_last_entry M pairs pre post
      "logdir".toList v arr1 cstr_lit_logdir hent hp hpost
    rw [logdir_last_wins M
      { init_globals M with arguments := arr1, argument_length := (pairs.length : Int) }
      P Q e hsz hsplit hname hQ (by rw [hargs]; exact hshort), hargs]
  · intro pre post v hp hpost hshort
    obtain ⟨P, Q, e, hsplit, hname, hargs, hQ⟩ := pairs_last_entry M pairs pre post
      "exec".toList v arr1 cstr_lit_exec hent hp hpost
    rw [exec_last_wins M
      { init_globals M with arguments := arr1, argument_length := (pairs.length : Int) }
      P Q e hsz hsplit hname hQ (by rw [hargs]; exact hshort), hargs]
  · intro pre post v hp hpost
    obtain ⟨P, Q, e, hsplit, hname, hargs, hQ⟩ := pairs_last_entry M pairs pre post
      "debug".toList v arr1 cstr_lit_debug hent hp hpost
    rw [debug_last_wins M _ P Q e hsplit hname hQ, headD_cstr, hargs]
  · intro pre post v hp hpost
    obtain ⟨P, Q, e, hsplit, hname, hargs, hQ⟩ := pairs_last_entry M pairs pre post
      "log".toList v arr1 cstr_lit_log hent hp hpost
    rw [log_last_wins M _ P Q e hsplit hname hQ, headD_cstr, hargs]

/-- Witness of C5 as amended: the string `-logdir /a -logdir /b` is accepted
and leaves `logdir` holding `/b`, and `-debug 1 -debug 0` leaves `debug_mode`
false. -/
theorem duplicate_keys_last_wins_witness :
    render [("logdir".toList, "/a".toList), ("logdir".toList, "/b".toList)]
      = "-logdir /a -logdir /b".toList ∧
    (∃ g : Globals,
      doCommandLineArgProcessing 16
        (render [("logdir".toList, "/a".toList), ("logdir".toList, "/b".toList)])
        (init_globals 16) = some g ∧
      g.argument_length = 2 ∧
      g.logdir = "/b".toList ++ List.replicate 14 NUL) ∧
    render [("debug".toList, "1".toList), ("debug".toList, "0".toList)]
      = "-debug 1 -debug 0".toList ∧
    (∃ g : Globals,
      doCommandLineArgProcessing 16
        (render [("debug".toList, "1".toList), ("debug".toList, "0".toList)])
        (init_globals 16) = some g ∧
      g.argument_length = 2 ∧
      g.debug_mode = false) := by
  refine ⟨by decide, ?_, by decide, ?_⟩
  · obtain ⟨g, hrun, hlen, _, hlogdir, _⟩ := (duplicate_keys_last_wins 16).2
      [("logdir".toList, "/a".toList), ("logdir".toList, "/b".toList)]
      (by decide) (by decide) (by decide) (by decide)
    exact ⟨g, hrun, hlen,
      hlogdir [("logdir".toList, "/a".toList)] [] "/b".toList rfl (by decide) (by decide)⟩
  · obtain ⟨g, hrun, hlen, _, _, _, hdebug, _⟩ := (duplicate_keys_last_wins 16).2
      [("debug".toList, "1".toList), ("debug".toList, "0".toList)]
      (by decide) (by decide) (by decide) (by decide)
    exact ⟨g, hrun, hlen,
      hdebug [("debug".toList, "1".toList)] [] "0".toList rfl (by decide)⟩

/-- C6, counterexample: the string `-only_from_app 1` is parsed into an
ordinary entry and `only_from_app` stays `false`, although the leading digit of
the value is `1`. -/
theorem only_from_app_key_ignored :
    (doCommandLineArgProcessing 16 "-only_from_app 1".toList (init_globals 16)).map
      (fun g => ((visited g).map (fun e => (cstr e.name, cstr e.arguments)),
        g.only_from_app))
    = some ([("only_from_app".toList, "1".toList)], false) := by
  decide

/-- C6 as amended: `only_from_app` is not a key of the flat configuration
string. `process_global_arguments` and `doCommandLineArgProcessing` leave the
flag as it was, whatever the string. On a string of the form of C1 the call
returns, the flag is still false, and a pair with the key `only_from_app` is
recorded like any other pair, as an entry with that name and its value. It is
`dr_client_main` that sets the flag: whenever it returns, with `DEBUG` defined
or not, the flag is true exactly when it was true before or an argument after
`argv[0]` equals `-only_from_app`; and without `DEBUG` it returns for every
`argv` when the main module exists. -/
theorem only_from_app_set_by_argv_only (M : Nat) (g : Globals) :
    (process_global_arguments M g).only_from_app = g.only_from_app ∧
    (∀ (args : List Char) (g1 : Globals),
      doCommandLineArgProcessing M args g = some g1 →
      g1.only_from_app = g.only_from_app) ∧
    (∀ pairs : List (List Char × List Char),
      1 ≤ pairs.length → pairs.length ≤ ARGUMENT_LENGTH →
      (∀ p ∈ pairs, key_ok M p.1) → (∀ p ∈ pairs, value_ok M p.2) →
      ∃ g1 : Globals,
        doCommandLineArgProcessing M (render pairs) (init_globals M) = some g1 ∧
        g1.only_from_app = false ∧
        ∀ (i : Nat) (v : List Char), pairs[i]? = some ("only_from_app".toList, v) →
          ∃ e : cmdarguments_t, g1.arguments[i]? = some e ∧
            cstr e.name = "only_from_app".toList ∧ cstr e.arguments = v) ∧
    (∀ (DEBUG : Bool) (argv : List (List Char)) (exe : Option module_data_t)
      (g1 : Globals),
      dr_client_main DEBUG g argv exe = some g1 →
      (g1.only_from_app = true ↔
        g.only_from_app = true ∨
          ∃ a ∈ argv.drop 1, strcmp_eq a "-only_from_app".toList = true)) ∧
    (∀ (argv : List (List Char)) (m : module_data_t),
      ∃ g1 : Globals, dr_client_main false g argv (some m) = some g1) := by
  refine ⟨(process_global_arguments_frame M g).2.2.1,
    fun args g1 h => doCommandLineArgProcessing_only_from_app M args g g1 h, ?_,
    fun DEBUG argv exe g1 h => dr_client_main_flag DEBUG g argv exe g1 h,
    fun argv m => dr_client_main_release g argv m⟩
  intro pairs h1 h2 hk hv
  obtain ⟨arr1, hrun, _, hent⟩ := doCommandLineArgProcessing_render M pairs h1 h2
    (fun p hp => pair_fits_of_ok M p (hk p hp) (hv p hp))
  obtain ⟨f1, _, f3, _⟩ := process_global_arguments_frame M
    { init_globals M with arguments := arr1, argument_length := (pairs.length : Int) }
  refine ⟨_, hrun, ?_, ?_⟩
  · rw [f3]
    rfl
  · intro i v hp
    rw [f1]
    exact hent i _ hp

/-- Witness of C6 as amended: after `-only_from_app 1` the flag is still the
initial `false` and the pair is an entry; `dr_client_main` with the argument
`-only_from_app` returns with the flag set, and without `DEBUG` it also returns
when another argument comes first. -/
theorem only_from_app_set_by_argv_only_witness :
    render [("only_from_app".toList, "1".toList)] = "-only_from_app 1".toList ∧
    (∃ g1 : Globals,
      doCommandLineArgProcessing 16 (render [("only_from_app".toList, "1".toList)])
        (init_globals 16) = some g1 ∧
      g1.only_from_app = false ∧
      ∃ e : cmdarguments_t, g1.arguments[0]? = some e ∧
        cstr e.name = "only_from_app".toList ∧ cstr e.arguments = "1".toList) ∧
    dr_client_main true (init_globals 16) ["client".toList, "-only_from_app".toList]
      (some { start := 4194304 }) = some main_only_globals ∧
    main_only_globals.only_from_app = true ∧
    dr_client_main false (init_globals 16)
      ["client".toList, "-verbose".toList, "-only_from_app".toList]
      (some { start := 4194304 }) = some main_only_globals := by
  refine ⟨by decide, ?_, by decide, ?_, by decide⟩
  · obtain ⟨g1, hrun, hflag, hent⟩ :=
      (only_from_app_set_by_argv_only 16 (init_globals 16)).2.2.1
        [("only_from_app".toList, "1".toList)] (by decide) (by decide) (by decide)
        (by decide)
    exact ⟨g1, hrun, hflag, hent 0 "1".toList rfl⟩
  · exact ((only_from_app_set_by_argv_only 16 (init_globals 16)).2.2.2.1 true
      ["client".toList, "-only_from_app".toList] (some { start := 4194304 })
      main_only_globals (by decide)).mpr
      (Or.inr ⟨"-only_from_app".toList, by decide, by decide⟩)

/-- C7: in a dispatch of a non-empty unit whose analysis context is not `NULL`,
the calls of `event_app_instruction` insert exactly one clean call: the call
for the first instruction inserts it, directly before the first application
instruction of the unit, with the count that `event_bb_analysis` computed in
this dispatch, which is the number of application instructions of the unit
(as a `uint`); a call for a non-first instruction inserts nothing. The result
depends on the unit alone and not on `global_count`, so a later dispatch of the
same unit gives the same single call. -/
theorem dispatch_inserts_exactly_one_call (g : Globals)
    (lookup : Nat → Option module_data_t) (tag : Nat) (bb : instrlist_t)
    (_hne : bb ≠ []) (hctx : (event_bb_analysis g lookup tag bb).2 ≠ 0) :
    (event_bb_analysis g lookup tag bb).2 = app_count bb % 2 ^ 32 ∧
    (∃ (pre : instrlist_t) (pc : Nat) (rest : instrlist_t),
      bb = pre ++ instr_t.app pc :: rest ∧ (∀ x ∈ pre, instr_is_app x = false) ∧
      (event_app_instruction bb true (event_bb_analysis g lookup tag bb).2).2
        = pre ++ instr_t.clean_call_inscount
            (OPND_CREATE_INT32 (event_bb_analysis g lookup tag bb).2)
            :: instr_t.app pc :: rest ∧
      dispatch g lookup tag bb
        = pre ++ instr_t.clean_call_inscount
            (OPND_CREATE_INT32 (event_bb_analysis g lookup tag bb).2)
            :: instr_t.app pc :: rest) ∧
    (∀ bb1 : instrlist_t,
      (event_app_instruction bb1 false (event_bb_analysis g lookup tag bb).2).2 = bb1) ∧
    ((dispatch g lookup tag bb).filter is_clean_call).length
      = (bb.filter is_clean_call).length + 1 ∧
    (∀ n : Nat, dispatch { g with global_count := n } lookup tag bb
      = dispatch g lookup tag bb) := by
  obtain ⟨hv, pre, pc, rest, hb, hp, hins, hd⟩ := dispatch_of_context g lookup tag bb hctx
  refine ⟨hv, ⟨pre, pc, rest, hb, hp, ?_, ?_⟩, ?_, ?_, ?_⟩
  · rw [hins, hv]
  · rw [hd, hv]
  · intro bb1
    rw [event_app_instruction_not_first]
  · rw [hd]
    conv_rhs => rw [hb]
    simp [List.filter_append, List.filter_cons, is_clean_call]
    omega
  · intro n
    rfl

/-- Witness of C7: the example unit, with a label before its three application
instructions, gets one call with the count 3 in front of the first of them. -/
theorem dispatch_inserts_exactly_one_call_witness :
    dispatch (init_globals 16) no_module_lookup 4096 example_unit
      = [instr_t.non_app 4096, instr_t.clean_call_inscount 3, instr_t.app 4096,
         instr_t.app 4098, instr_t.app 4101] ∧
    ((dispatch (init_globals 16) no_module_lookup 4096 example_unit).filter
        is_clean_call).length
      = (example_unit.filter is_clean_call).length + 1 :=
  ⟨by decide,
   (dispatch_inserts_exactly_one_call (init_globals 16) no_module_lookup 4096 example_unit
      (by decide) (by decide)).2.2.2.1⟩

/-- C8: when `event_bb_analysis` stores `NULL` in `*user_data`, every call of
`event_app_instruction` for the unit, for the first instruction or another,
returns `DR_EMIT_DEFAULT` and leaves the block as it is, so the dispatch
inserts nothing; `event_bb_analysis` returns `DR_EMIT_DEFAULT` as well. -/
theorem skip_inserts_nothing (g : Globals) (lookup : Nat → Option module_data_t)
    (tag : Nat) (bb : instrlist_t) (hskip : (event_bb_analysis g lookup tag bb).2 = 0) :
    (∀ (bb1 : instrlist_t) (first : Bool),
      event_app_instruction bb1 first (event_bb_analysis g lookup tag bb).2
        = (dr_emit_flags_t.DR_EMIT_DEFAULT, bb1)) ∧
    dispatch g lookup tag bb = bb ∧
    (event_bb_analysis g lookup tag bb).1 = dr_emit_flags_t.DR_EMIT_DEFAULT := by
  refine ⟨?_, dispatch_of_null g lookup tag bb hskip, event_bb_analysis_flag g lookup tag bb⟩
  intro bb1 first
  rw [hskip, event_app_instruction_null]

/-- Witness of C8: with `only_from_app` set, the example unit in a library is
skipped and its dispatch returns it unchanged. -/
theorem skip_inserts_nothing_witness :
    event_bb_analysis main_only_globals library_lookup 4096 example_unit
      = (dr_emit_flags_t.DR_EMIT_DEFAULT, 0) ∧
    dispatch main_only_globals library_lookup 4096 example_unit = example_unit :=
  ⟨by decide,
   (skip_inserts_nothing main_only_globals library_lookup 4096 example_unit
      (by decide)).2.1⟩

/-- C9, counterexample: with `only_from_app` set, a unit whose start address
lies in no module (`dr_lookup_module` returns `NULL`) is not skipped: the
analysis stores the count 3 and the dispatch inserts the call. -/
theorem unit_in_no_module_is_counted :
    main_only_globals.only_from_app = true ∧
    no_module_lookup 4096 = none ∧
    event_bb_analysis main_only_globals no_module_lookup 4096 example_unit
      = (dr_emit_flags_t.DR_EMIT_DEFAULT, 3) ∧
    dispatch main_only_globals no_module_lookup 4096 example_unit
      = [instr_t.non_app 4096, instr_t.clean_call_inscount 3, instr_t.app 4096,
         instr_t.app 4098, instr_t.app 4101] := by
  decide

/-- C9 as amended: with `only_from_app` set, `event_bb_analysis` skips a unit
(stores `NULL`) when the module that contains its start address exists and
does not begin at `exe_start`; for a unit of the main module, and also for a
unit whose start address lies in no module, the context is the count of its
application instructions (as a `uint`). So the context is other than `NULL`
exactly when that count is not zero and the unit is in the main module or in
no module. -/
theorem only_from_app_skips_other_modules (g : Globals)
    (lookup : Nat → Option module_data_t) (tag : Nat) (bb : instrlist_t)
    (h : g.only_from_app = true) :
    (∀ mod : module_data_t, lookup tag = some mod → mod.start ≠ g.exe_start →
      event_bb_analysis g lookup tag bb = (dr_emit_flags_t.DR_EMIT_DEFAULT, 0)) ∧
    (∀ mod : module_data_t, lookup tag = some mod → mod.start = g.exe_start →
      event_bb_analysis g lookup tag bb
        = (dr_emit_flags_t.DR_EMIT_DEFAULT, app_count bb % 2 ^ 32)) ∧
    (lookup tag = none →
      event_bb_analysis g lookup tag bb
        = (dr_emit_flags_t.DR_EMIT_DEFAULT, app_count bb % 2 ^ 32)) ∧
    ((event_bb_analysis g lookup tag bb).2 ≠ 0 ↔
      app_count bb % 2 ^ 32 ≠ 0 ∧
        (lookup tag = none ∨
          ∃ mod : module_data_t, lookup tag = some mod ∧ mod.start = g.exe_start)) := by
  have hc : count_loop bb 0 = app_count bb % 2 ^ 32 := by
    rw [count_loop_eq bb 0 (by norm_num), Nat.zero_add]
  have h1 : ∀ mod : module_data_t, lookup tag = some mod → mod.start ≠ g.exe_start →
      event_bb_analysis g lookup tag bb = (dr_emit_flags_t.DR_EMIT_DEFAULT, 0) := by
    intro mod hm hs
    simp [event_bb_analysis, h, hm, hs]
  have h2 : ∀ mod : module_data_t, lookup tag = some mod → mod.start = g.exe_start →
      event_bb_analysis g lookup tag bb
        = (dr_emit_flags_t.DR_EMIT_DEFAULT, app_count bb % 2 ^ 32) := by
    intro mod hm hs
    simp [event_bb_analysis, h, hm, hs, hc]
  have h3 : lookup tag = none →
      event_bb_analysis g lookup tag bb
        = (dr_emit_flags_t.DR_EMIT_DEFAULT, app_count bb % 2 ^ 32) := by
    intro hm
    simp [event_bb_analysis, h, hm, hc]
  refine ⟨h1, h2, h3, ?_, ?_⟩
  · intro hne
    cases hm : lookup tag with
    | none =>
      rw [h3 hm] at hne
      exact ⟨hne, Or.inl rfl⟩
    | some mod =>
      by_cases hs : mod.start = g.exe_start
      · rw [h2 mod hm hs] at hne
        exact ⟨hne, Or.inr ⟨mod, rfl, hs⟩⟩
      · rw [h1 mod hm hs] at hne
        exact absurd rfl hne
  · rintro ⟨hcount, hmod⟩
    rcases hmod with hm | ⟨mod, hm, hs⟩
    · rw [h3 hm]
      exact hcount
    · rw [h2 mod hm hs]
      exact hcount

/-- Witness of C9 as amended: with `only_from_app` set, the example unit is
skipped in a library and counted in the main module and in no module; a unit
of the main module without application instructions has the context `NULL`. -/
theorem only_from_app_skips_other_modules_witness :
    event_bb_analysis main_only_globals library_lookup 4096 example_unit
      = (dr_emit_flags_t.DR_EMIT_DEFAULT, 0) ∧
    event_bb_analysis main_only_globals main_module_lookup 4096 example_unit
      = (dr_emit_flags_t.DR_EMIT_DEFAULT, app_count example_unit % 2 ^ 32) ∧
    event_bb_analysis main_only_globals no_module_lookup 4096 example_unit
      = (dr_emit_flags_t.DR_EMIT_DEFAULT, app_count example_unit % 2 ^ 32) ∧
    app_count example_unit % 2 ^ 32 = 3 ∧
    (event_bb_analysis main_only_globals no_module_lookup 4096 example_unit).2 ≠ 0 ∧
    event_bb_analysis main_only_globals main_module_lookup 4096 []
      = (dr_emit_flags_t.DR_EMIT_DEFAULT, 0) :=
  ⟨(only_from_app_skips_other_modules main_only_globals library_lookup 4096 example_unit
      (by decide)).1 { start := 8388608 } (by decide) (by decide),
   (only_from_app_skips_other_modules main_only_globals main_module_lookup 4096
      example_unit (by decide)).2.1 { start := 4194304 } (by decide) (by decide),
   (only_from_app_skips_other_modules main_only_globals no_module_lookup 4096
      example_unit (by decide)).2.2.1 (by decide),
   by decide,
   (only_from_app_skips_other_modules main_only_globals no_module_lookup 4096
      example_unit (by decide)).2.2.2.mpr ⟨by decide, Or.inl (by decide)⟩,
   by decide⟩

/-- C10: with `only_from_app` unset, running a finite sequence of units one
after another, each dispatched through `event_bb_analysis` and
`event_app_instruction` and then executed, raises `global_count` by the total
number of application instructions of the units, modulo `2^64`, when every
unit has fewer than `2^31` of them (and arrives without an `inscount` call of
its own). A unit without application instructions has the context `NULL`,
gets no call, and adds nothing. -/
theorem global_count_totals_executed_instructions
    (lookup : Nat → Option module_data_t) (g : Globals) (units : List (Nat × instrlist_t))
    (hofa : g.only_from_app = false) (hgc : g.global_count < 2 ^ 64)
    (hunits : ∀ u ∈ units,
      (∀ x ∈ u.2, is_clean_call x = false) ∧ app_count u.2 < 2 ^ 31) :
    (run_units lookup g units).global_count
      = (g.global_count + (units.map (fun u => app_count u.2)).sum) % 2 ^ 64 ∧
    (∀ u ∈ units, app_count u.2 = 0 →
      (event_bb_analysis g lookup u.1 u.2).2 = 0 ∧ dispatch g lookup u.1 u.2 = u.2) := by
  refine ⟨run_units_global_count lookup units g hofa hgc hunits, ?_⟩
  intro u _ h0
  have hnull : (event_bb_analysis g lookup u.1 u.2).2 = 0 := by
    rw [event_bb_analysis_counts g lookup u.1 u.2 hofa, h0]
    exact Nat.zero_mod _
  exact ⟨hnull, dispatch_of_null g lookup u.1 u.2 hnull⟩

/-- Witness of C10: the three example units have 3, 0 and 1 application
instructions and leave `global_count = 4`. -/
theorem global_count_totals_executed_instructions_witness :
    (run_units no_module_lookup (init_globals 16) example_run).global_count
      = ((init_globals 16).global_count
          + (example_run.map (fun u => app_count u.2)).sum) % 2 ^ 64 ∧
    ((init_globals 16).global_count
      + (example_run.map (fun u => app_count u.2)).sum) % 2 ^ 64 = 4 :=
  ⟨(global_count_totals_executed_instructions no_module_lookup (init_globals 16)
      example_run (by decide) (by decide) (by decide)).1,
   by decide⟩

/-! ## Lemmas on the number of entries -/

theorem parse_step_index (st st1 : ParseState) (c : Char)
    (h : parse_step st c = some st1) :
    st1.index = st.index + (if c = '-' then 1 else 0) := by
  unfold parse_step at h
  by_cases hc : c = '-'
  · rw [if_pos hc] at h
    rw [if_pos hc]
    split at h
    · cases h
    · have := Option.some.inj h
      rw [← this]
  · rw [if_neg hc] at h
    rw [if_neg hc, Int.add_zero]
    by_cases h2 : c = ' ' ∧ st.name_collect_state = true
    · rw [if_pos h2] at h
      split at h
      · cases h
      · have := Option.some.inj h
        rw [← this]
    · rw [if_neg h2] at h
      have key : ∀ st2 : ParseState, st2.index = st.index →
          (if st2.arguments_collect_state = true then
            (store_arguments st2.arguments st2.index st2.string_index c).map
              (fun arr => { st2 with arguments := arr, string_index := st2.string_index + 1 })
          else some st2) = some st1 → st1.index = st.index := by
        intro st2 hi2 h5
        by_cases h4 : st2.arguments_collect_state = true
        · rw [if_pos h4] at h5
          cases hs : store_arguments st2.arguments st2.index st2.string_index c with
          | none => rw [hs] at h5; cases h5
          | some arr =>
            rw [hs] at h5
            have := Option.some.inj h5
            rw [← this]
            exact hi2
        · rw [if_neg h4] at h5
          have := Option.some.inj h5
          rw [← this]
          exact hi2
      by_cases h3 : st.name_collect_state = true
      · rw [if_pos h3] at h
        cases hs : store_name st.arguments st.index st.string_index c with
        | none => rw [hs] at h; cases h
        | some arr =>
          rw [hs] at h
          exact key { st with arguments := arr, string_index := st.string_index + 1 } rfl h
      · rw [if_neg h3] at h
        exact key st rfl h

theorem parse_loop_index (cs : List Char) :
    ∀ st st1 : ParseState, parse_loop cs st = some st1 →
      st1.index = st.index + ((cstr cs).count '-' : Nat) := by
  induction cs with
  | nil =>
    intro st st1 h
    have := Option.some.inj h
    rw [← this]
    simp [cstr]
  | cons c cs ih =>
    intro st st1 h
    by_cases hc : c = NUL
    · rw [parse_loop, if_pos hc] at h
      have := Option.some.inj h
      rw [← this]
      simp [cstr, hc]
    · rw [parse_loop, if_neg hc] at h
      cases hs : parse_step st c with
      | none => rw [hs] at h; cases h
      | some st2 =>
        rw [hs] at h
        have h1 := parse_step_index st st2 c hs
        have h2 := ih st2 st1 h
        have hcs : cstr (c :: cs) = c :: cstr cs := by simp [cstr, hc]
        rw [h2, h1, hcs, List.count_cons]
        by_cases hd : c = '-'
        · simp [hd]; omega
        · have hd2 : ¬ (c == '-') = true := by simpa using hd
          simp [hd, hd2]

theorem store_arguments_length (arr arr1 : List cmdarguments_t) (j s : Int) (c : Char)
    (h : store_arguments arr j s c = some arr1) :
    arr1.length = arr.length ∧ 0 ≤ j ∧ j < arr.length := by
  unfold store_arguments at h
  by_cases hj : 0 ≤ j
  · rw [if_pos hj] at h
    cases he : arr[j.toNat]? with
    | none => rw [he] at h; cases h
    | some e =>
      rw [he] at h
      dsimp only at h
      have hlt := lt_length_of_getElem? arr j.toNat e he
      cases hs : store e.arguments s c with
      | none => rw [hs] at h; cases h
      | some b =>
        rw [hs] at h
        have := Option.some.inj h
        rw [← this]
        refine ⟨by simp, hj, ?_⟩
        omega
  · rw [if_neg hj] at h
    cases h

theorem store_name_length (arr arr1 : List cmdarguments_t) (j s : Int) (c : Char)
    (h : store_name arr j s c = some arr1) :
    arr1.length = arr.length := by
  unfold store_name at h
  by_cases hj : 0 ≤ j
  · rw [if_pos hj] at h
    cases he : arr[j.toNat]? with
    | none => rw [he] at h; cases h
    | some e =>
      rw [he] at h
      dsimp only at h
      cases hs : store e.name s c with
      | none => rw [hs] at h; cases h
      | some b =>
        rw [hs] at h
        have := Option.some.inj h
        rw [← this]
        simp
  · rw [if_neg hj] at h
    cases h

theorem parse_step_length (st st1 : ParseState) (c : Char)
    (h : parse_step st c = some st1) :
    st1.arguments.length = st.arguments.length := by
  unfold parse_step at h
  by_cases hc : c = '-'
  · rw [if_pos hc] at h
    by_cases hi : 0 ≤ st.index
    · rw [if_pos hi] at h
      cases hs : store_arguments st.arguments st.index (st.string_index - 1) NUL with
      | none => rw [hs] at h; cases h
      | some arr =>
        rw [hs] at h
        have := Option.some.inj h
        rw [← this]
        exact (store_arguments_length _ _ _ _ _ hs).1
    · rw [if_neg hi] at h
      have := Option.some.inj h
      rw [← this]
  · rw [if_neg hc] at h
    by_cases h2 : c = ' ' ∧ st.name_collect_state = true
    · rw [if_pos h2] at h
      cases hs : store_name st.arguments st.index st.string_index NUL with
      | none => rw [hs] at h; cases h
      | some arr =>
        rw [hs] at h
        have := Option.some.inj h
        rw [← this]
        exact store_name_length _ _ _ _ _ hs
    · rw [if_neg h2] at h
      have key : ∀ st2 : ParseState, st2.arguments.length = st.arguments.length →
          (if st2.arguments_collect_state = true then
            (store_arguments st2.arguments st2.index st2.string_index c).map
              (fun arr => { st2 with arguments := arr, string_index := st2.string_index + 1 })
          else some st2) = some st1 → st1.arguments.length = st.arguments.length := by
        intro st2 hi2 h5
        by_cases h4 : st2.arguments_collect_state = true
        · rw [if_pos h4] at h5
          cases hs : store_arguments st2.arguments st2.index st2.string_index c with
          | none => rw [hs] at h5; cases h5
          | some arr =>
            rw [hs] at h5
            have := Option.some.inj h5
            rw [← this]
            exact (store_arguments_length _ _ _ _ _ hs).1.trans hi2
        · rw [if_neg h4] at h5
          have := Option.some.inj h5
          rw [← this]
          exact hi2
      by_cases h3 : st.name_collect_state = true
      · rw [if_pos h3] at h
        cases hs : store_name st.arguments st.index st.string_index c with
        | none => rw [hs] at h; cases h
        | some arr =>
          rw [hs] at h
          exact key { st with arguments := arr, string_index := st.string_index + 1 }
            (store_name_length _ _ _ _ _ hs) h
      · rw [if_neg h3] at h
        exact key st rfl h

theorem parse_loop_length (cs : List Char) :
    ∀ st st1 : ParseState, parse_loop cs st = some st1 →
      st1.arguments.length = st.arguments.length := by
  induction cs with
  | nil =>
    intro st st1 h
    have := Option.some.inj h
    rw [← this]
  | cons c cs ih =>
    intro st st1 h
    by_cases hc : c = NUL
    · rw [parse_loop, if_pos hc] at h
      have := Option.some.inj h
      rw [← this]
    · rw [parse_loop, if_neg hc] at h
      cases hs : parse_step st c with
      | none => rw [hs] at h; cases h
      | some st2 =>
        rw [hs] at h
        exact (ih st2 st1 h).trans (parse_step_length st st2 c hs)

theorem doCommandLineArgProcessing_argument_length (M : Nat) (args : List Char)
    (g g1 : Globals) (h : doCommandLineArgProcessing M args g = some g1) :
    g1.argument_length = ((cstr args).count '-' : Nat) ∧
    1 ≤ (cstr args).count '-' ∧ (cstr args).count '-' ≤ g.arguments.length := by
  unfold doCommandLineArgProcessing parse_from at h
  cases hl : parse_loop args (parse_start g.arguments) with
  | none => rw [hl] at h; cases h
  | some st =>
    rw [hl] at h
    dsimp only at h
    have hidx := parse_loop_index args _ st hl
    have hlen := parse_loop_length args _ st hl
    unfold parse_epilog at h
    cases hs : store_arguments st.arguments st.index st.string_index NUL with
    | none => rw [hs] at h; cases h
    | some arr =>
      rw [hs] at h
      dsimp only at h
      obtain ⟨_, h0, h1⟩ := store_arguments_length _ _ _ _ _ hs
      have hg := Option.some.inj h
      have hstart : (parse_start g.arguments).index = -1 := rfl
      have hstart2 : (parse_start g.arguments).arguments = g.arguments := rfl
      rw [hstart] at hidx
      rw [hlen, hstart2] at h1
      refine ⟨?_, by omega, by omega⟩
      rw [← hg, (process_global_arguments_frame M _).2.1]
      show st.index + 1 = _
      omega

/-! ## Strings on which every write is inside the arrays -/

theorem table_sized_set (M : Nat) (arr : List cmdarguments_t) (j : Nat)
    (e : cmdarguments_t) (h : table_sized M arr) (hn : e.name.length = M)
    (ha : e.arguments.length = 10 * M) : table_sized M (arr.set j e) := by
  refine ⟨by rw [List.length_set]; exact h.1, ?_⟩
  intro x hx
  rcases List.mem_or_eq_of_mem_set hx with hx | hx
  · exact h.2 x hx
  · rw [hx]; exact ⟨hn, ha⟩

theorem table_sized_get (M : Nat) (arr : List cmdarguments_t) (j : Nat)
    (h : table_sized M arr) (hj : j < ARGUMENT_LENGTH) :
    ∃ e : cmdarguments_t, arr[j]? = some e ∧ e.name.length = M ∧
      e.arguments.length = 10 * M := by
  have hlt : j < arr.length := by rw [h.1]; exact hj
  exact ⟨arr[j], List.getElem?_eq_getElem hlt, h.2 _ (List.getElem_mem hlt)⟩

theorem store_arguments_ok (M : Nat) (arr : List cmdarguments_t) (j s : Nat) (c : Char)
    (h : table_sized M arr) (hj : j < ARGUMENT_LENGTH) (hs : s < 10 * M) :
    ∃ arr1 : List cmdarguments_t,
      store_arguments arr (j : Int) (s : Int) c = some arr1 ∧ table_sized M arr1 := by
  obtain ⟨e, he, hn, ha⟩ := table_sized_get M arr j h hj
  have hlt : s < e.arguments.length := by omega
  have hsplit := split_at_getElem? e.arguments s e.arguments[s]
    (List.getElem?_eq_getElem hlt)
  have hlen : (e.arguments.take s).length = s := by
    rw [List.length_take]; omega
  have hst := store_arguments_at arr j e (e.arguments.take s) (e.arguments.drop (s + 1))
    e.arguments[s] c he hsplit
  rw [hlen] at hst
  refine ⟨_, hst, table_sized_set M arr j _ h hn ?_⟩
  have h2 : e.arguments.length
      = (e.arguments.take s ++ e.arguments[s] :: e.arguments.drop (s + 1)).length :=
    congrArg List.length hsplit
  rw [← ha, h2]
  simp only [List.length_append, List.length_take, List.length_cons, List.length_drop]

theorem parse_step_dash (M : Nat) (arr : List cmdarguments_t) (j s : Nat) (f1 f2 : Bool)
    (h : table_sized M arr) (hj : j < ARGUMENT_LENGTH) (hs1 : 1 ≤ s) (hs2 : s ≤ 10 * M) :
    ∃ arr1 : List cmdarguments_t,
      parse_step { arguments := arr, string_index := (s : Int), index := (j : Int),
                   name_collect_state := f1, arguments_collect_state := f2 } '-'
        = some { arguments := arr1, string_index := 0, index := ((j + 1 : Nat) : Int),
                 name_collect_state := true, arguments_collect_state := false } ∧
      table_sized M arr1 := by
  obtain ⟨arr1, hst, hsz⟩ := store_arguments_ok M arr j (s - 1) NUL h hj (by omega)
  have hcast : ((s - 1 : Nat) : Int) = (s : Int) - 1 := by omega
  rw [hcast] at hst
  refine ⟨arr1, ?_, hsz⟩
  simp [parse_step, hst]

theorem parse_loop_junk (junk : List Char) (hjunk : value_chars junk) :
    ∀ (rest : List Char) (arr : List cmdarguments_t),
      parse_loop (junk ++ rest) (parse_start arr) = parse_loop rest (parse_start arr) := by
  induction junk with
  | nil => intro rest arr; rfl
  | cons c cs ih =>
    intro rest arr
    obtain ⟨hc1, hc2⟩ := hjunk c (List.mem_cons_self _ _)
    have hstep : parse_step (parse_start arr) c = some (parse_start arr) := by
      simp [parse_step, parse_start, hc1]
    rw [List.cons_append, parse_loop, if_neg hc2, hstep]
    exact ih (fun d hd => hjunk d (List.mem_cons_of_mem _ hd)) rest arr

theorem parse_loop_segment (M : Nat) (last : Bool) (s : segment) (rest : List Char)
    (arr : List cmdarguments_t) (j : Nat) (h : table_sized M arr)
    (hj : j < ARGUMENT_LENGTH) (hfit : segment_fits M last s) :
    ∃ (arr1 : List cmdarguments_t) (t : Nat) (f1 f2 : Bool),
      parse_loop (segment_body s ++ rest)
        { arguments := arr, string_index := 0, index := (j : Int),
          name_collect_state := true, arguments_collect_state := false }
      = parse_loop rest
        { arguments := arr1, string_index := (t : Int), index := (j : Int),
          name_collect_state := f1, arguments_collect_state := f2 } ∧
      table_sized M arr1 ∧ t ≤ 10 * M ∧ (last = false → 1 ≤ t) ∧
      (last = true → t < 10 * M) := by
  obtain ⟨e, he, hn, ha⟩ := table_sized_get M arr j h hj
  obtain ⟨k, v⟩ := s
  cases v with
  | none =>
    obtain ⟨hk, hkl, hne, hlast⟩ := hfit
    have h1 := parse_loop_name k rest arr j e [] e.name hk he (by simp) (by omega)
    simp only [List.length_nil, Nat.cast_zero, List.nil_append] at h1
    refine ⟨_, k.length, true, false, h1, ?_, by omega, ?_, hlast⟩
    · exact table_sized_set M arr j _ h
        (by simp only [List.length_append, List.length_drop]; omega) ha
    · intro hl
      have := hne hl
      exact Nat.pos_of_ne_zero (fun h0 => this (List.length_eq_zero.mp h0))
  | some v =>
    obtain ⟨hk, hkl, hv, hvl, hne, hlast⟩ := hfit
    have h1 := parse_loop_pair k v rest arr j e hk hv he (by omega) (by omega)
    have hb : segment_body (k, some v) ++ rest = k ++ ' ' :: (v ++ rest) := by
      simp [segment_body]
    rw [hb]
    refine ⟨_, v.length, false, true, h1, ?_, hvl, ?_, hlast⟩
    · exact table_sized_set M arr j _ h
        (by simp only [List.length_append, List.length_cons, List.length_drop]; omega)
        (by simp only [List.length_append, List.length_drop]; omega)
    · intro hl
      have := hne hl
      exact Nat.pos_of_ne_zero (fun h0 => this (List.length_eq_zero.mp h0))

theorem parse_from_segments (M : Nat) (segs : List segment) :
    ∀ (s : segment) (arr : List cmdarguments_t) (j : Nat), table_sized M arr →
      j + (segs.length + 1) ≤ ARGUMENT_LENGTH → segments_fit M (s :: segs) →
      ∃ arr1 : List cmdarguments_t,
        parse_from (segment_body s ++ render_segments segs)
          { arguments := arr, string_index := 0, index := (j : Int),
            name_collect_state := true, arguments_collect_state := false }
        = some (arr1, ((j + segs.length + 1 : Nat) : Int)) := by
  induction segs with
  | nil =>
    intro s arr j h hj hfit
    obtain ⟨arr1, t, f1, f2, hrun, hsz, _, _, hlast⟩ :=
      parse_loop_segment M true s [] arr j h (by simp at hj; omega) hfit
    obtain ⟨arr2, hst, _⟩ := store_arguments_ok M arr1 j t NUL hsz (by simp at hj; omega)
      (hlast rfl)
    refine ⟨arr2, ?_⟩
    have hr : segment_body s ++ render_segments [] = segment_body s ++ [] := rfl
    rw [hr, parse_from_of_loop _ _ _ _ hrun]
    simp [parse_from, parse_loop, parse_epilog, hst]
  | cons s2 rest ih =>
    intro s arr j h hj hfit
    obtain ⟨hfit1, hfit2⟩ := hfit
    simp only [List.length_cons] at hj
    obtain ⟨arr1, t, f1, f2, hrun, hsz, ht, hnl, _⟩ :=
      parse_loop_segment M false s ('-' :: (segment_body s2 ++ render_segments rest))
        arr j h (by omega) hfit1
    obtain ⟨arr2, hdash, hsz2⟩ := parse_step_dash M arr1 j t f1 f2 hsz (by omega)
      (hnl rfl) ht
    obtain ⟨arr3, hrest⟩ := ih s2 arr2 (j + 1) hsz2 (by omega) hfit2
    refine ⟨arr3, ?_⟩
    have hdn : ('-' : Char) ≠ NUL := by decide
    have hr : segment_body s ++ render_segments (s2 :: rest)
        = segment_body s ++ '-' :: (segment_body s2 ++ render_segments rest) := by
      simp [render_segments]
    rw [hr, parse_from_of_loop _ _ _ _ hrun, parse_from_cons _ _ _ _ hdn hdash, hrest]
    simp only [List.length_cons]
    congr 2
    omega

theorem table_sized_init (M : Nat) : table_sized M (init_globals M).arguments := by
  refine ⟨by simp [init_globals], ?_⟩
  intro e he
  simp only [init_globals, List.mem_replicate] at he
  rw [he.2]
  simp [zero_entry]

theorem doCommandLineArgProcessing_segments (M : Nat) (junk : List Char)
    (segs : List segment) (hjunk : value_chars junk) (h1 : 1 ≤ segs.length)
    (h2 : segs.length ≤ ARGUMENT_LENGTH) (hfit : segments_fit M segs) :
    ∃ g1 : Globals,
      doCommandLineArgProcessing M (junk ++ render_segments segs) (init_globals M)
        = some g1 ∧
      g1.argument_length = (segs.length : Int) := by
  cases segs with
  | nil => simp at h1
  | cons s rest =>
    simp only [List.length_cons] at h2
    obtain ⟨arr1, hrun⟩ := parse_from_segments M rest s (init_globals M).arguments 0
      (table_sized_init M) (by omega) hfit
    have hdn : ('-' : Char) ≠ NUL := by decide
    have hstep : parse_step (parse_start (init_globals M).arguments) '-'
        = some { arguments := (init_globals M).arguments, string_index := 0,
                 index := ((0 : Nat) : Int),
                 name_collect_state := true, arguments_collect_state := false } := by
      simp [parse_step, parse_start]
    have hall : parse_from (junk ++ render_segments (s :: rest))
        (parse_start (init_globals M).arguments)
        = some (arr1, ((0 + rest.length + 1 : Nat) : Int)) := by
      have hr : render_segments (s :: rest)
          = '-' :: (segment_body s ++ render_segments rest) := by
        simp [render_segments]
      rw [parse_from_of_loop _ _ _ _
        (parse_loop_junk junk hjunk (render_segments (s :: rest)) _), hr,
        parse_from_cons _ _ _ _ hdn hstep, hrun]
    have hd : doCommandLineArgProcessing M (junk ++ render_segments (s :: rest))
        (init_globals M)
        = some (process_global_arguments M
            { init_globals M with
              arguments := arr1
              argument_length := ((0 + rest.length + 1 : Nat) : Int) }) := by
      simp only [doCommandLineArgProcessing, hall]
    refine ⟨_, hd, ?_⟩
    rw [(process_global_arguments_frame M _).2.1]
    simp only [List.length_cons]
    congr 1
    omega

/-! ## Lemmas on the pass table -/

theorem setupInsPasses_constraints (drw : String) :
    ∀ p ∈ setupInsPasses drw, p.priority.before = some drw ∧ p.priority.after = none := by
  intro p hp
  simp only [setupInsPasses, List.mem_cons, List.mem_singleton, List.not_mem_nil,
    or_false] at hp
  rcases hp with h | h | h | h | h | h | h | h | h | h <;> rw [h] <;> exact ⟨rfl, rfl⟩

theorem pass_edge_none (drw : String)
    (h : ∀ p ∈ setupInsPasses drw, p.priority.name ≠ drw) :
    pass_edge ((setupInsPasses drw).take pass_length) = fun _ _ => false := by
  funext i j
  have ht : (setupInsPasses drw).take pass_length = setupInsPasses drw := rfl
  rw [ht]
  unfold pass_edge
  cases hi : (setupInsPasses drw)[i]? with
  | none => rfl
  | some u =>
    cases hj : (setupInsPasses drw)[j]? with
    | none => rfl
    | some v =>
      have hu := setupInsPasses_constraints drw u (List.mem_iff_getElem?.mpr ⟨i, hi⟩)
      have hv := setupInsPasses_constraints drw v (List.mem_iff_getElem?.mpr ⟨j, hj⟩)
      have hne := h v (List.mem_iff_getElem?.mpr ⟨j, hj⟩)
      have h1 : ¬ (u.priority.before = some v.priority.name) := by
        rw [hu.1]
        intro heq
        exact hne (Option.some.inj heq).symm
      have h2 : ¬ (v.priority.after = some u.priority.name) := by
        rw [hv.2]
        intro heq
        cases heq
      simp [h1, h2]

theorem order_from_priorities :
    order_from [1, 3, 3, 3, 3, 4, 0, 0, 0, 0] (fun _ _ => false) 10 (List.range 10) []
      = some [6, 7, 8, 9, 0, 1, 2, 3, 4, 5] := by
  decide

theorem compute_order_setupInsPasses (drw : String)
    (h : ∀ p ∈ setupInsPasses drw, p.priority.name ≠ drw) :
    (compute_order ((setupInsPasses drw).take pass_length)).map
        (fun order => order.map (fun p => p.name))
      = some ["funcwrap", "memdump", "funcreplace", "misc", "profile", "cpuid",
          "memtrace", "inscount", "instrace", "functrace"] := by
  have hp : ((setupInsPasses drw).take pass_length).map (fun p => p.priority.priority)
      = [1, 3, 3, 3, 3, 4, 0, 0, 0, 0] := rfl
  have hl : ((setupInsPasses drw).take pass_length).length = 10 := rfl
  unfold compute_order
  rw [pass_edge_none drw h, hp, hl, order_from_priorities]
  rfl

/-! ## The claims on array bounds, pass order and entry count -/

/-- C12, the code at the failing inputs. On the empty string, and on `abc`
without any `'-'`, the loop leaves `index = -1` and the epilog writes to
`arguments[-1]`. On `-a -b 1` the loop reaches the second `'-'` with
`index = 0` and `string_index = 0` and writes the terminator to
`arguments[0].arguments[-1]`. Each of these writes is outside its array, so
the call has no defined result. -/
theorem writes_outside_the_arrays :
    parse_loop [] (parse_start (init_globals 16).arguments)
      = some (parse_start (init_globals 16).arguments) ∧
    (parse_start (init_globals 16).arguments).index = -1 ∧
    parse_epilog (parse_start (init_globals 16).arguments) = none ∧
    doCommandLineArgProcessing 16 [] (init_globals 16) = none ∧
    doCommandLineArgProcessing 16 "abc".toList (init_globals 16) = none ∧
    (parse_loop "-a ".toList (parse_start (init_globals 16).arguments)).map
      (fun st => (st.index, st.string_index)) = some (0, 0) ∧
    store (zero_entry 16).arguments (0 - 1) NUL = none ∧
    doCommandLineArgProcessing 16 "-a -b 1".toList (init_globals 16) = none := by
  decide

/-- C13, counterexample: in the order computed from the table of
`setupInsPasses` (with `drwrap` for `DRMGR_PRIORITY_NAME_DRWRAP`), the first
pass is `funcwrap`, and `profile` comes fifth, after the four passes of
priority 0. -/
theorem profile_is_not_first :
    (compute_order ((setupInsPasses "drwrap").take pass_length)).map
        (fun order => (order.map (fun p => p.name)).head?)
      = some (some "funcwrap") ∧
    (compute_order ((setupInsPasses "drwrap").take pass_length)).map
        (fun order => (order.map (fun p => p.name)).indexOf "profile")
      = some 4 := by
  decide

/-- C13 as amended: when `DRMGR_PRIORITY_NAME_DRWRAP` names none of the ten
passes, so that no pass has a constraint on another registered pass, the pass
order of the table of `setupInsPasses` is `funcwrap`, `memdump`,
`funcreplace`, `misc` (priority 0, in registration order), then `profile`
(priority 1), then `cpuid`, `memtrace`, `inscount`, `instrace` (priority 3) and
`functrace` (priority 4). So `profile` is the first of the passes of priority 1
or more, and the four passes of priority 0 are ordered before it. -/
theorem pass_order_of_setupInsPasses (DRMGR_PRIORITY_NAME_DRWRAP : String)
    (h : ∀ p ∈ setupInsPasses DRMGR_PRIORITY_NAME_DRWRAP,
      p.priority.name ≠ DRMGR_PRIORITY_NAME_DRWRAP) :
    (compute_order ((setupInsPasses DRMGR_PRIORITY_NAME_DRWRAP).take pass_length)).map
        (fun order => order.map (fun p => p.name))
      = some ["funcwrap", "memdump", "funcreplace", "misc", "profile", "cpuid",
          "memtrace", "inscount", "instrace", "functrace"] :=
  compute_order_setupInsPasses DRMGR_PRIORITY_NAME_DRWRAP h

/-- Witness of C13 as amended: the name `drwrap`. -/
theorem pass_order_of_setupInsPasses_witness :
    (∀ p ∈ setupInsPasses "drwrap", p.priority.name ≠ "drwrap") ∧
    (compute_order ((setupInsPasses "drwrap").take pass_length)).map
        (fun order => order.map (fun p => p.name))
      = some ["funcwrap", "memdump", "funcreplace", "misc", "profile", "cpuid",
          "memtrace", "inscount", "instrace", "functrace"] :=
  ⟨by decide, pass_order_of_setupInsPasses "drwrap" (by decide)⟩

/-- The entry count on the runs without a write outside the arrays. Whenever
`doCommandLineArgProcessing` returns, `argument_length` is the number of `'-'`
characters of the string, wherever they stand, and that number is between 1
and the size of the table. And it does return, from zero-initialised storage,
on every string made of ignored characters without `'-'` followed by 1 to
`ARGUMENT_LENGTH` segments, each a `'-'` with a key and optionally a space and
a value text, when keys and value texts fit the arrays and every `'-'` after
the first directly follows at least one collected character; the number of
`'-'` is then the number of segments. -/
theorem argument_length_counts_dashes (M : Nat) :
    (∀ (args : List Char) (g g1 : Globals),
      doCommandLineArgProcessing M args g = some g1 →
      g1.argument_length = ((cstr args).count '-' : Nat) ∧
      1 ≤ (cstr args).count '-' ∧ (cstr args).count '-' ≤ g.arguments.length) ∧
    (∀ (junk : List Char) (segs : List segment),
      value_chars junk → 1 ≤ segs.length → segs.length ≤ ARGUMENT_LENGTH →
      segments_fit M segs →
      ∃ g1 : Globals,
        doCommandLineArgProcessing M (junk ++ render_segments segs) (init_globals M)
          = some g1 ∧
        g1.argument_length = (segs.length : Int) ∧
        (cstr (junk ++ render_segments segs)).count '-' = segs.length) := by
  refine ⟨fun args g g1 h => doCommandLineArgProcessing_argument_length M args g g1 h, ?_⟩
  intro junk segs hjunk h1 h2 hfit
  obtain ⟨g1, hrun, hlen⟩ := doCommandLineArgProcessing_segments M junk segs hjunk h1 h2 hfit
  refine ⟨g1, hrun, hlen, ?_⟩
  have hc := (doCommandLineArgProcessing_argument_length M _ _ g1 hrun).1
  rw [hlen] at hc
  exact (Int.ofNat.inj hc).symm

/-- An instance of the entry count: `x-logdir /tmp/my-dir`, with a character
before the first `'-'` and a `'-'` inside the value, gives two entries. -/
theorem argument_length_counts_dashes_witness :
    "x".toList ++ render_segments example_segments = "x-logdir /tmp/my-dir".toList ∧
    ∃ g1 : Globals,
      doCommandLineArgProcessing 16 ("x".toList ++ render_segments example_segments)
        (init_globals 16) = some g1 ∧
      g1.argument_length = (example_segments.length : Int) ∧
      (cstr ("x".toList ++ render_segments example_segments)).count '-'
        = example_segments.length :=
  ⟨by decide,
   (argument_length_counts_dashes 16).2 "x".toList example_segments (by decide) (by decide)
     (by decide) (by decide)⟩
end SimpleDRClient
